import Mathlib

/-! GmpvPlayer: playlist, metadata and track-list reconciliation

A shallow embedding of `src/gmpv_player.c`.  The player keeps three caches
(playlist, metadata, track list), the one-shot flag `init_vo_config` and the
path of its temporary input configuration file.  The media engine (mpv, reached
through the parent class `GmpvMpv`) is a collaborator: every query the C code
makes of it is answered by an `Engine` record, and every call the C code makes
into it is recorded, in order, as an `Effect`.

Conventions of the embedding

* `gchar *` values that can be `NULL` are `Option String`.
* `gint64` values are `Int`; the code only copies and compares them.
* a `GPtrArray` is a `List`; `g_ptr_array_set_size (a, 0)` is `[]` and
  `g_ptr_array_add` appends at the end.
* the `for` loops over an `mpv_node_list` are left folds over the list.
* diagnostics (`g_debug`, `g_info`, `g_warning`) are not recorded.
* the methods of the parent class (`load_file`, `reset`, `mpv_event`,
  `mpv_property_changed`) are defined outside this file of the repository: a call to
  one of them is recorded as an effect and is taken not to call back into the player.
-/

namespace Gmpv

/-! ## Engine values (`mpv_node`) -/

/-- The format tags of `mpv_format` (mpv client API) that an `mpv_node` can carry. -/
inductive mpv_format where
  | MPV_FORMAT_NONE
  | MPV_FORMAT_STRING
  | MPV_FORMAT_FLAG
  | MPV_FORMAT_INT64
  | MPV_FORMAT_DOUBLE
  | MPV_FORMAT_NODE_ARRAY
  | MPV_FORMAT_NODE_MAP
  | MPV_FORMAT_BYTE_ARRAY
  deriving DecidableEq, Repr

/-- An `mpv_node`: a format tag together with the active member of the union `u`.
An array carries its values (`num` is the length of the list); a map carries its
keys and values pairwise, in the order of the `mpv_node_list`.  A double is carried
as the rational it denotes: the code never computes with it. -/
inductive MpvNode where
  | none
  | string (s : String)
  | flag (b : Bool)
  | int64 (n : Int)
  | double (d : Rat)
  | node_array (values : List MpvNode)
  | node_map (entries : List (String × MpvNode))
  | byte_array (bytes : List Nat)

/-- An `mpv_node_list` with keys: `keys[i]` and `values[i]` side by side. -/
abbrev mpv_node_list := List (String × MpvNode)

/-- The field `format` of an `mpv_node`. -/
def MpvNode.format : MpvNode → mpv_format
  | .none => .MPV_FORMAT_NONE
  | .string _ => .MPV_FORMAT_STRING
  | .flag _ => .MPV_FORMAT_FLAG
  | .int64 _ => .MPV_FORMAT_INT64
  | .double _ => .MPV_FORMAT_DOUBLE
  | .node_array _ => .MPV_FORMAT_NODE_ARRAY
  | .node_map _ => .MPV_FORMAT_NODE_MAP
  | .byte_array _ => .MPV_FORMAT_BYTE_ARRAY

/-- The read `node.u.string`.  The C code reads the member without looking at the
format; the read is meaningful only for a node of format `MPV_FORMAT_STRING`, and
the embedding gives `none` for every other node.  Statements about parsed fields
assume the field is a string. -/
def MpvNode.u_string : MpvNode → Option String
  | .string s => some s
  | _ => Option.none

/-- The read `node.u.int64`, meaningful only for a node of format
`MPV_FORMAT_INT64`; the embedding gives `0` for every other node. -/
def MpvNode.u_int64 : MpvNode → Int
  | .int64 n => n
  | _ => 0

/-- The values of `node.u.list` for a node of format `MPV_FORMAT_NODE_ARRAY`
(`values[0]`, ..., `values[num - 1]`).  Only read after the format was checked. -/
def MpvNode.u_array : MpvNode → List MpvNode
  | .node_array values => values
  | _ => []

/-- The read `node.u.list` of an element that is handed to a parser walking
`keys[i]`: meaningful only for format `MPV_FORMAT_NODE_MAP`, and empty for every
other node.  Statements about parsed elements assume the element is a map. -/
def MpvNode.u_list : MpvNode → mpv_node_list
  | .node_map entries => entries
  | _ => []

/-! ## The player's data -/

/-- A `GmpvPlaylistEntry`, as built by `gmpv_playlist_entry_new (filename, title)`. -/
structure GmpvPlaylistEntry where
  filename : Option String
  title : Option String
  deriving DecidableEq, Repr

/-- A `GmpvMetadataEntry`, as built by `gmpv_metadata_entry_new (key, value)`. -/
structure GmpvMetadataEntry where
  key : String
  value : String
  deriving DecidableEq, Repr

/-- The `TrackType` of a `GmpvTrack`.  The three named kinds are the ones
`parse_track_entry` assigns; `TRACK_TYPE_UNKNOWN` is the kind of a fresh track. -/
inductive TrackType where
  | TRACK_TYPE_UNKNOWN
  | TRACK_TYPE_AUDIO
  | TRACK_TYPE_VIDEO
  | TRACK_TYPE_SUBTITLE
  deriving DecidableEq, Repr

/-- A `GmpvTrack`. -/
structure GmpvTrack where
  type : TrackType
  title : Option String
  lang : Option String
  id : Int
  deriving DecidableEq, Repr

/-- The fields of `struct _GmpvPlayer` (the parent instance apart). -/
structure GmpvPlayer where
  playlist : List GmpvPlaylistEntry
  metadata : List GmpvMetadataEntry
  track_list : List GmpvTrack
  init_vo_config : Bool
  tmp_input_config : Option String
  deriving DecidableEq, Repr

/-- The state set up by `gmpv_player_init`: three empty arrays,
`init_vo_config = TRUE`, `tmp_input_config = NULL`. -/
def gmpv_player_init : GmpvPlayer :=
  { playlist := []
    metadata := []
    track_list := []
    init_vo_config := true
    tmp_input_config := Option.none }

/-! ## The engine as seen from the player -/

/-- What the engine and the parent object answer while one handler runs.
`flag` and `int64` are `gmpv_mpv_get_property` with `MPV_FORMAT_FLAG` and
`MPV_FORMAT_INT64` (`none`: the query fails and the caller's variable keeps its
initial value); `node` is the answer with `MPV_FORMAT_NODE` (a failed query would
leave the caller's `mpv_node` uninitialised and is not modelled); `ready` is the
GObject property read by `g_object_get`.  The last three fields describe the
scripts directory: its path, the names `g_dir_read_name` lists (`none` when
`g_dir_open` fails) and the outcome of `g_file_test (_, G_FILE_TEST_IS_REGULAR)`. -/
structure Engine where
  ready : Bool
  flag : String → Option Bool
  int64 : String → Option Int
  node : String → MpvNode
  scripts_dir_path : String
  scripts_dir : Option (List String)
  is_regular : String → Bool

/-- The call `gmpv_mpv_get_property (mpv, name, MPV_FORMAT_FLAG, &x)` where `x` was
initialised to `init`. -/
def gmpv_mpv_get_property_flag (mpv : Engine) (name : String) (init : Bool) : Bool :=
  (mpv.flag name).getD init

/-- The call `gmpv_mpv_get_property (mpv, name, MPV_FORMAT_INT64, &x)` where `x` was
initialised to `init`. -/
def gmpv_mpv_get_property_int64 (mpv : Engine) (name : String) (init : Int) : Int :=
  (mpv.int64 name).getD init

/-- The routines of the player that issue engine calls; an `Effect.enter` records
that one of them was run. -/
inductive Routine where
  | load_scripts
  | load_from_playlist
  deriving DecidableEq, Repr

/-- One call made by the player into the engine or into its parent class, or the
record that a routine was entered. -/
inductive Effect where
  | enter (r : Routine)
  | parent_load_file (uri : Option String) (append : Bool)
  | parent_reset
  | parent_mpv_event (event_id : Int)
  | parent_mpv_property_changed (name : String) (value : Option Int)
  | command (argv : List String)
  | set_property_flag (name : String) (value : Bool)
  | set_property_int64 (name : String) (value : Int)
  | set_option_string (name : String) (value : String)
  | fclose (ok : Bool)
  deriving DecidableEq, Repr

/-! ## Cache rebuilds -/

/-- The function `parse_playlist_entry`: walk the keys of the node list, remember the
string under `filename` and under `title` (a later occurrence of a key overwrites an
earlier one), and build the entry. -/
def parse_playlist_entry (node : mpv_node_list) : GmpvPlaylistEntry :=
  let init : Option String × Option String := (Option.none, Option.none)
  let r := node.foldl
    (fun (acc : Option String × Option String) (kv : String × MpvNode) =>
      if kv.1 = "filename" then (kv.2.u_string, acc.2)
      else if kv.1 = "title" then (acc.1, kv.2.u_string)
      else acc)
    init
  { filename := r.1, title := r.2 }

/-- The function `update_playlist`: empty the cache, query `playlist`, and when the
answer is an array add one parsed entry per element, in order. -/
def update_playlist (mpv : Engine) (player : GmpvPlayer) : GmpvPlayer :=
  let player := { player with playlist := [] }
  let playlist := mpv.node "playlist"
  if playlist.format = mpv_format.MPV_FORMAT_NODE_ARRAY then
    playlist.u_array.foldl
      (fun (p : GmpvPlayer) (v : MpvNode) =>
        { p with playlist := p.playlist ++ [parse_playlist_entry v.u_list] })
      player
  else player

/-- The function `update_metadata`: empty the cache, query `metadata`, and when the
answer is a map with at least one field add one entry per field whose value has
format `MPV_FORMAT_STRING`, in order; the other fields are skipped. -/
def update_metadata (mpv : Engine) (player : GmpvPlayer) : GmpvPlayer :=
  let player := { player with metadata := [] }
  let metadata := mpv.node "metadata"
  let org_list := metadata.u_list
  if metadata.format = mpv_format.MPV_FORMAT_NODE_MAP ∧ org_list.length > 0 then
    org_list.foldl
      (fun (p : GmpvPlayer) (kv : String × MpvNode) =>
        if kv.2.format = mpv_format.MPV_FORMAT_STRING then
          match kv.2.u_string with
          | some value => { p with metadata := p.metadata ++ [{ key := kv.1, value := value }] }
          | Option.none => p
        else p)
      player
  else player

/-- Modelled from the spec: `gmpv_track_new` is defined outside `gmpv_player.c`.  A
fresh track has kind Unknown and neither title nor language; the spec gives no
initial id, and the embedding takes `0`. -/
def gmpv_track_new : GmpvTrack :=
  { type := TrackType.TRACK_TYPE_UNKNOWN, title := Option.none, lang := Option.none, id := 0 }

/-- The function `parse_track_entry`: walk the keys of the node list and fill the
fields of a fresh track from `type`, `title`, `lang` and `id`. -/
def parse_track_entry (node : mpv_node_list) : GmpvTrack :=
  node.foldl
    (fun (entry : GmpvTrack) (kv : String × MpvNode) =>
      if kv.1 = "type" then
        let type := kv.2.u_string
        if type = some "audio" then { entry with type := TrackType.TRACK_TYPE_AUDIO }
        else if type = some "video" then { entry with type := TrackType.TRACK_TYPE_VIDEO }
        else if type = some "sub" then { entry with type := TrackType.TRACK_TYPE_SUBTITLE }
        else entry
      else if kv.1 = "title" then { entry with title := kv.2.u_string }
      else if kv.1 = "lang" then { entry with lang := kv.2.u_string }
      else if kv.1 = "id" then { entry with id := kv.2.u_int64 }
      else entry)
    gmpv_track_new

/-- The function `update_track_list`: empty the cache, query `track-list`, and when
the answer is an array add one parsed track per element, in order. -/
def update_track_list (mpv : Engine) (player : GmpvPlayer) : GmpvPlayer :=
  let player := { player with track_list := [] }
  let track_list := mpv.node "track-list"
  if track_list.format = mpv_format.MPV_FORMAT_NODE_ARRAY then
    track_list.u_array.foldl
      (fun (p : GmpvPlayer) (v : MpvNode) =>
        { p with track_list := p.track_list ++ [parse_track_entry v.u_list] })
      player
  else player

/-! ## Staging and replay -/

/-- The function `add_file_to_playlist`: append `gmpv_playlist_entry_new (uri, NULL)`. -/
def add_file_to_playlist (player : GmpvPlayer) (uri : String) : GmpvPlayer :=
  { player with playlist := player.playlist ++ [{ filename := some uri, title := Option.none }] }

/-- The function `load_from_playlist`: one parent `load_file` call per cache entry, in
order, with `append = (i != 0)`. -/
def load_from_playlist (player : GmpvPlayer) : List Effect :=
  Effect.enter Routine.load_from_playlist ::
    player.playlist.enum.map
      (fun (ie : Nat × GmpvPlaylistEntry) => Effect.parent_load_file ie.2.filename (ie.1 != 0))

/-- The call `g_build_filename (path, name, NULL)` of GLib, for a relative `name`;
with `name = NULL` the argument list ends early and the result is `path`. -/
def g_build_filename (path : String) (name : Option String) : String :=
  match name with
  | some n => path ++ "/" ++ n
  | Option.none => path

/-- The function `load_scripts`: when the scripts directory can be opened, one
`load-script` command per listed name whose full path is a regular file.  The
`do ... while (name)` loop runs its body once more after the listing ends, with
`name = NULL`. -/
def load_scripts (mpv : Engine) : List Effect :=
  Effect.enter Routine.load_scripts ::
    match mpv.scripts_dir with
    | some names =>
      (names.map some ++ [Option.none]).filterMap
        (fun (name : Option String) =>
          let full_path := g_build_filename mpv.scripts_dir_path name
          if mpv.is_regular full_path then some (Effect.command ["load-script", full_path])
          else Option.none)
    | Option.none => []

/-! ## The overridden methods of `GmpvMpv` -/

/-- The value of `MPV_EVENT_START_FILE` in the mpv client API. -/
def MPV_EVENT_START_FILE : Int := 6

/-- The method `mpv_event_handler`. -/
def mpv_event_handler (mpv : Engine) (player : GmpvPlayer) (event_id : Int) :
    GmpvPlayer × List Effect :=
  let player :=
    if event_id = MPV_EVENT_START_FILE then
      let vo_configured := gmpv_mpv_get_property_flag mpv "vo-configured" false
      if !vo_configured then update_playlist mpv player else player
    else player
  (player, [Effect.parent_mpv_event event_id])

/-- The method `mpv_property_changed_handler`.  `value` is the pointer argument: `none`
is `NULL`, `some v` a pointer to the int `v` (the handler reads it only as an int). -/
def mpv_property_changed_handler (mpv : Engine) (player : GmpvPlayer) (name : String)
    (value : Option Int) : GmpvPlayer × List Effect :=
  let r : GmpvPlayer × List Effect :=
    if name = "pause" then
      let idle_active := gmpv_mpv_get_property_flag mpv "idle-active" false
      let pause : Int := match value with
        | some v => v
        | Option.none => 1
      if idle_active ∧ pause = 0 ∧ player.init_vo_config = false then
        (player, load_from_playlist player)
      else (player, [])
    else if name = "playlist" then
      let _playlist_count := gmpv_mpv_get_property_int64 mpv "playlist-count" 0
      let idle_active := gmpv_mpv_get_property_flag mpv "idle-active" false
      let was_empty : Bool := player.playlist.length = 0
      let player := if !idle_active then update_playlist mpv player else player
      if was_empty ∧ player.playlist.length > 0 then
        (player, [Effect.set_property_flag "pause" false])
      else (player, [])
    else if name = "metadata" then (update_metadata mpv player, [])
    else if name = "track-list" then (update_track_list mpv player, [])
    else if name = "vo-configured" then
      if player.init_vo_config then
        let player := { player with init_vo_config := false }
        (player, load_scripts mpv ++ load_from_playlist player)
      else (player, [])
    else (player, [])
  (r.1, r.2 ++ [Effect.parent_mpv_property_changed name value])

/-- The method `load_file`. -/
def load_file (mpv : Engine) (player : GmpvPlayer) (uri : String) (append : Bool) :
    GmpvPlayer × List Effect :=
  let ready := mpv.ready
  let idle_active := gmpv_mpv_get_property_flag mpv "idle-active" false
  if idle_active ∨ ¬ ready then
    let player := if !append then { player with playlist := [] } else player
    (add_file_to_playlist player uri, [])
  else (player, [Effect.parent_load_file (some uri) append])

/-- The method `reset`. -/
def reset (mpv : Engine) (player : GmpvPlayer) : GmpvPlayer × List Effect :=
  let idle_active := gmpv_mpv_get_property_flag mpv "idle-active" false
  let playlist_pos := gmpv_mpv_get_property_int64 mpv "playlist-pos" 0
  (player,
    [Effect.parent_reset]
      ++ (if !idle_active then load_from_playlist player else [])
      ++ (if playlist_pos > 0 then [Effect.set_property_int64 "playlist-pos" playlist_pos] else []))

/-! ## Sequences of operations -/

/-- One operation on the player, as dispatched through the class methods. -/
inductive Request where
  | mpv_event (event_id : Int)
  | mpv_property_changed (name : String) (value : Option Int)
  | load_file (uri : String) (append : Bool)
  | reset

/-- Run one operation; `mpv` gives the engine's answers while it runs. -/
def step (player : GmpvPlayer) (op : Engine × Request) : GmpvPlayer × List Effect :=
  match op.2 with
  | .mpv_event event_id => mpv_event_handler op.1 player event_id
  | .mpv_property_changed name value => mpv_property_changed_handler op.1 player name value
  | .load_file uri append => load_file op.1 player uri append
  | .reset => reset op.1 player

/-- Run a sequence of operations from `player`; the result is the final state and the
effects of every operation, in order. -/
def run (player : GmpvPlayer) : List (Engine × Request) → GmpvPlayer × List Effect
  | [] => (player, [])
  | op :: ops =>
    let r := step player op
    let rest := run r.1 ops
    (rest.1, r.2 ++ rest.2)

/-! ## Reading a field of a map -/

/-- The string held by the last field of `entries` named `key`, if there is one. -/
def last_string (key : String) (entries : mpv_node_list) : Option String :=
  ((entries.filter (fun kv => kv.1 = key)).getLast?).bind (fun kv => kv.2.u_string)

/-- The map `entries` gives `key` the optional string `o`: either no field is named
`key` and `o` is `none`, or some field named `key` holds the string `s`, every field
named `key` holds that same string, and `o` is `some s`. -/
def field_is (entries : mpv_node_list) (key : String) (o : Option String) : Prop :=
  match o with
  | Option.none => ∀ kv ∈ entries, kv.1 ≠ key
  | some s => (key, MpvNode.string s) ∈ entries ∧
      ∀ v, (key, v) ∈ entries → v = MpvNode.string s

/-! ## Concrete engines -/

/-- An engine that answers the same way to every query: the given flags, playlist
position and structured values, and an empty scripts directory `scripts`. -/
def fixed_engine (ready idle_active vo_configured : Bool) (playlist_pos : Int)
    (playlist metadata track_list : MpvNode) : Engine :=
  { ready := ready
    flag := fun name =>
      if name = "idle-active" then some idle_active
      else if name = "vo-configured" then some vo_configured
      else Option.none
    int64 := fun name => if name = "playlist-pos" then some playlist_pos else Option.none
    node := fun name =>
      if name = "playlist" then playlist
      else if name = "metadata" then metadata
      else if name = "track-list" then track_list
      else MpvNode.none
    scripts_dir_path := "scripts"
    scripts_dir := some []
    is_regular := fun _ => false }

/-- A two-item engine playlist: the first item has a title and is the current one. -/
def two_item_playlist : List MpvNode :=
  [ MpvNode.node_map
      [("filename", MpvNode.string "a.mp4"), ("current", MpvNode.flag true),
       ("title", MpvNode.string "A")],
    MpvNode.node_map [("filename", MpvNode.string "b.mp4")] ]

/-- A player whose three caches hold stale entries and whose bootstrap is done. -/
def stale_player : GmpvPlayer :=
  { playlist := [{ filename := some "old.mkv", title := some "Old" }]
    metadata := [{ key := "artist", value := "Nobody" }]
    track_list := [{ type := TrackType.TRACK_TYPE_AUDIO, title := Option.none,
                     lang := some "en", id := 1 }]
    init_vo_config := false
    tmp_input_config := Option.none }

/-! ## Reading a trace -/

/-- A write to the engine's `pause` property. -/
def is_pause_write : Effect → Bool
  | .set_property_flag name _ => name = "pause"
  | _ => false

/-- A `load_file` call forwarded to the parent class. -/
def is_parent_load_file : Effect → Bool
  | .parent_load_file _ _ => true
  | _ => false

/-- The effects of a trace that are calls (the `enter` records left out). -/
def engine_calls (trace : List Effect) : List Effect :=
  trace.filter (fun e => match e with
    | .enter _ => false
    | _ => true)

/-- The string fields of a map, as metadata entries, in the order of the map. -/
def string_fields (entries : mpv_node_list) : List GmpvMetadataEntry :=
  entries.filterMap (fun kv => match kv.2 with
    | .string s => some { key := kv.1, value := s }
    | _ => Option.none)

/-- An engine that is idle-active and whose parent object is not ready yet. -/
def idle_engine : Engine :=
  fixed_engine false true false 0 (MpvNode.node_array []) MpvNode.none MpvNode.none

/-- An engine that is playing (ready, not idle-active, video output configured)
with the two-item playlist, at playlist position `pos`. -/
def playing_engine (pos : Int) : Engine :=
  fixed_engine true false true pos (MpvNode.node_array two_item_playlist)
    MpvNode.none MpvNode.none

/-- A cache staged by two `load_file` requests. -/
def staged_player : GmpvPlayer :=
  { gmpv_player_init with
    playlist := [{ filename := some "a.mp4", title := Option.none },
                 { filename := some "b.mp4", title := Option.none }] }

/-- The metadata answer of the scenario: a string title and a numeric duration. -/
def song_metadata : mpv_node_list :=
  [("title", MpvNode.string "Song"), ("duration", MpvNode.double (7 / 2))]

/-- An engine none of whose three structured answers has the expected shape. -/
def shapeless_engine : Engine :=
  fixed_engine true false true 0 (MpvNode.string "playlist") (MpvNode.node_array [])
    (MpvNode.node_map [("id", MpvNode.int64 1)])

/-- An engine that is ready and idle-active, as after start-up with nothing loaded. -/
def idle_ready_engine : Engine :=
  fixed_engine true true true 0 (MpvNode.node_array []) MpvNode.none MpvNode.none

/-- A session: staging while idle, the bootstrap notification, then a later
`vo-configured`, `pause`, `playlist`, `metadata` and `track-list` notification, a
start-of-file event and a reset. -/
def sample_session : List (Engine × Request) :=
  [ (idle_engine, Request.load_file "a.mp4" false),
    (idle_ready_engine, Request.mpv_property_changed "vo-configured" (some 1)),
    (playing_engine 1, Request.mpv_property_changed "vo-configured" (some 0)),
    (idle_ready_engine, Request.mpv_property_changed "pause" (some 0)),
    (playing_engine 1, Request.mpv_property_changed "playlist" Option.none),
    (playing_engine 1, Request.mpv_property_changed "metadata" Option.none),
    (playing_engine 1, Request.mpv_property_changed "track-list" Option.none),
    (playing_engine 1, Request.mpv_event MPV_EVENT_START_FILE),
    (playing_engine 1, Request.reset) ]

/-! ## Classifying operations -/

/-- The operation is a `vo-configured` property-change notification. -/
def is_vo_configured (op : Engine × Request) : Bool :=
  match op.2 with
  | .mpv_property_changed name _ => name = "vo-configured"
  | _ => false

/-- The operation is a reset taken while the engine reports idle-active false. -/
def is_reset_not_idle (op : Engine × Request) : Bool :=
  match op.2 with
  | .reset => !gmpv_mpv_get_property_flag op.1 "idle-active" false
  | _ => false

/-- The operation is a `pause` notification whose value is "not paused" (a pointer to
the int zero) while the engine reports idle-active true. -/
def is_unpause_while_idle (op : Engine × Request) : Bool :=
  match op.2 with
  | .mpv_property_changed name value =>
    name = "pause" && value = some 0 && gmpv_mpv_get_property_flag op.1 "idle-active" false
  | _ => false

/-- How many times routine `r` was entered in a trace. -/
def count_enter (r : Routine) (trace : List Effect) : Nat :=
  trace.count (Effect.enter r)

/-- The `pause` notifications with value "not paused" and idle-active true that come
after the first `vo-configured` notification of a sequence. -/
def unpauses_after_bootstrap (ops : List (Engine × Request)) : List (Engine × Request) :=
  (ops.dropWhile (fun op => !is_vo_configured op)).filter is_unpause_while_idle

/-- A replay triggered with bootstrap complete: the bootstrap notification followed by
a `pause` notification with value "not paused" while the engine is idle-active. -/
def unpause_session : List (Engine × Request) :=
  [ (idle_ready_engine, Request.mpv_property_changed "vo-configured" (some 1)),
    (idle_ready_engine, Request.mpv_property_changed "pause" (some 0)) ]

/-- A reset requested on a fresh player while the engine is playing. -/
def reset_session : List (Engine × Request) :=
  [ (playing_engine 0, Request.reset) ]

/-- A scripts directory holding two scripts and a sub-directory, on an engine that
is idle-active and ready. -/
def scripts_engine : Engine :=
  { idle_ready_engine with
    scripts_dir := some ["osc.lua", "stats", "autoload.lua"]
    is_regular := fun full_path =>
      full_path = "scripts/osc.lua" || full_path = "scripts/autoload.lua" }

/-- The engine call is a command (such as `load-script`). -/
def is_command : Effect → Bool
  | .command _ => true
  | _ => false

/-! ## An engine playlist -/

/-- Modelled from the spec: the parent method `load_file` and the engine behind it are
defined outside `gmpv_player.c`.  In the engine model of the replay claim a `load_file`
call without append replaces the engine playlist by the single given item, a
`load_file` call with append adds the item at the end, and no other call of the
player changes the engine playlist. -/
def engine_apply (playlist : List (Option String)) : Effect → List (Option String)
  | .parent_load_file uri append => if append then playlist ++ [uri] else [uri]
  | _ => playlist

/-- The engine playlist after the calls of a trace, applied in order. -/
def engine_playlist_after (playlist : List (Option String)) (trace : List Effect) :
    List (Option String) :=
  trace.foldl engine_apply playlist

/-- An engine that is playing (not idle-active) under a parent object that is not
ready yet. -/
def unready_playing_engine : Engine :=
  fixed_engine false false false 0 (MpvNode.node_array two_item_playlist)
    MpvNode.none MpvNode.none

/-! ## Reading the fields of a track -/

/-- The map `entries` gives `key` the integer `n`: some field named `key` holds the
int64 `n`, and every field named `key` holds that same value. -/
def int64_field_is (entries : mpv_node_list) (key : String) (n : Int) : Prop :=
  (key, MpvNode.int64 n) ∈ entries ∧ ∀ v, (key, v) ∈ entries → v = MpvNode.int64 n

/-- The kind named by a `type` string, when it is one of the three known names. -/
def recognised_type (type : Option String) : Option TrackType :=
  if type = some "audio" then some TrackType.TRACK_TYPE_AUDIO
  else if type = some "video" then some TrackType.TRACK_TYPE_VIDEO
  else if type = some "sub" then some TrackType.TRACK_TYPE_SUBTITLE
  else Option.none

/-- The kind of a track whose `type` field is `type`: Audio, Video or Subtitle for
`audio`, `video` and `sub`, and Unknown for any other or absent `type`. -/
def track_type_of (type : Option String) : TrackType :=
  (recognised_type type).getD TrackType.TRACK_TYPE_UNKNOWN

/-- The kind named by the last `type` field of `entries` that names a known kind, and
Unknown when there is none. -/
def last_kind (entries : mpv_node_list) : TrackType :=
  ((entries.filterMap
      (fun kv => if kv.1 = "type" then recognised_type kv.2.u_string else Option.none)).getLast?).getD
    TrackType.TRACK_TYPE_UNKNOWN

/-- The integer read from the last field of `entries` named `key`, and `0` when there
is none. -/
def last_int64 (key : String) (entries : mpv_node_list) : Int :=
  (((entries.filter (fun kv => kv.1 = key)).getLast?).map (fun kv => kv.2.u_int64)).getD 0

/-- A two-track engine answer: an English audio track and an untitled track of a kind
the player does not know. -/
def two_tracks : List MpvNode :=
  [ MpvNode.node_map
      [("id", MpvNode.int64 1), ("type", MpvNode.string "audio"),
       ("lang", MpvNode.string "en"), ("selected", MpvNode.flag true)],
    MpvNode.node_map [("id", MpvNode.int64 7), ("type", MpvNode.string "attachment")] ]

/-! ## The temporary input configuration file -/

/-- The files on disk: the bytes held by every existing path. -/
abbrev Disk := String → Option (List Nat)

/-- The call `g_unlink (path)`: the path no longer exists afterwards. -/
def g_unlink (disk : Disk) (path : String) : Disk :=
  fun q => if q = path then Option.none else disk q

/-- What the operating system and the C library answer while `load_input_conf` runs:
`tmp_name` is the name `g_file_open_tmp` picks for the new file (`none` when no file can
be created), `room` is the number of bytes the new file can take before a `write` comes
up short, `bufsiz` is the size of the buffer the C library gives the stream, and
`src_file` is the outcome of `g_fopen (input_conf, "r")`, the bytes of the file or
`none` when it cannot be opened. -/
structure InputConfEnv where
  tmp_name : Option String
  room : Nat
  bufsiz : Nat
  src_file : Option (List Nat)

/-- The size of the copy buffer in `load_input_conf`. -/
def buf_size : Nat := 65536

/-- The calls `g_file_open_tmp` and `fdopen`: the file is created exclusively, so the
stream is `NULL` when no name was picked or a file of that name already exists. -/
def g_file_open_tmp (disk : Disk) (tmp_name : Option String) : Option String :=
  match tmp_name with
  | some tmp_path => if (disk tmp_path).isSome then Option.none else some tmp_path
  | Option.none => Option.none

/-- The stream `tmp_file`, opened by `fdopen (tmp_fd, "w")` and so fully buffered: the
bytes that have reached the file, and the bytes the C library has accepted and still
holds in its buffer. -/
structure OutStream where
  file : List Nat
  buffer : List Nat

/-- All the bytes a stream has accepted: those in the file, then those in the buffer. -/
def OutStream.bytes (s : OutStream) : List Nat :=
  s.file ++ s.buffer

/-- The system call `write` on a file that can take `room` bytes in all: the bytes that
fit are added to the file, and the result is their number. -/
def sys_write (room : Nat) (file bytes : List Nat) : List Nat × Nat :=
  let fit := bytes.take (room - file.length)
  (file ++ fit, fit.length)

/-- Writing the buffer of a stream out to its file; the flag tells whether every
buffered byte was written. -/
def flush (room : Nat) (s : OutStream) : OutStream × Bool :=
  let w := sys_write room s.file s.buffer
  ({ file := w.1, buffer := s.buffer.drop w.2 }, decide (w.2 = s.buffer.length))

/-- The call `fwrite (data, size, nmemb, f)` of the C library on a fully buffered stream
(`data` has `size * nmemb` bytes), after the GNU implementation: a request of zero bytes
gives zero; otherwise the buffer is filled first, and if bytes are left over the full
buffer is written out, then as many whole buffers of the rest as there are go straight
to the file, and what remains is kept in the buffer.  The result is `nmemb` when every
byte was placed, in the file or in the buffer, and the number of complete items placed
when a `write` came up short.  Bytes kept in the buffer count as written. -/
def fwrite (room bufsiz : Nat) (s : OutStream) (data : List Nat) (size nmemb : Nat) :
    OutStream × Nat :=
  if size = 0 ∨ nmemb = 0 then (s, 0)
  else
    let count := min (bufsiz - s.buffer.length) data.length
    let filled : OutStream := { s with buffer := s.buffer ++ data.take count }
    let rest := data.drop count
    if rest = [] then (filled, nmemb)
    else
      let flushed := flush room filled
      if flushed.2 = false then (flushed.1, (data.length - rest.length) / size)
      else
        let do_write := rest.length - (if 128 ≤ bufsiz then rest.length % bufsiz else 0)
        let w := sys_write room flushed.1.file (rest.take do_write)
        if w.2 < do_write then
          ({ file := w.1, buffer := flushed.1.buffer },
            (data.length - (rest.length - w.2)) / size)
        else ({ file := w.1, buffer := rest.drop do_write }, nmemb)

/-- The call `fputc (c, f)` of the C library on a fully buffered stream: the byte goes
into the buffer, after the buffer was written out if it was full; the result is the
byte, or `EOF` (-1) when writing the buffer out came up short. -/
def fputc (room bufsiz : Nat) (s : OutStream) (c : Nat) : OutStream × Int :=
  if s.buffer.length < bufsiz then ({ s with buffer := s.buffer ++ [c] }, (c : Int))
  else
    let flushed := flush room s
    if flushed.2 = false then (flushed.1, -1)
    else ({ file := flushed.1.file, buffer := [c] }, (c : Int))

/-- The loop of `load_input_conf` over `default_keybinds`: each binding is written with
`fwrite (keybind, len, 1, f)` and followed by `fputc (10, f)`, where 10 is the newline;
`none` is the `g_error` taken when `write_size != 1` or `rc` is not the newline. -/
def write_default_keybinds (room bufsiz : Nat) :
    List (List Nat) → OutStream → Option OutStream
  | [], s => some s
  | keybind :: rest, s =>
    let len := keybind.length
    let w := fwrite room bufsiz s keybind len 1
    let rc := fputc room bufsiz w.1 10
    if w.2 ≠ 1 ∨ rc.2 ≠ 10 then Option.none
    else write_default_keybinds room bufsiz rest rc.1

/-- The copy loop of `load_input_conf` for an opened `src_file` whose unread bytes are
`src`: `fread` takes up to `buf_size` bytes, `fwrite` writes them, a short count is the
`g_error` (`none`), and the loop goes on while a read fills the buffer. -/
def copy_input_conf (room bufsiz : Nat) (src : List Nat) (s : OutStream) :
    Option OutStream :=
  let chunk := src.take buf_size
  let read_size := chunk.length
  let w := fwrite room bufsiz s chunk 1 read_size
  if read_size ≠ w.2 then Option.none
  else if _h : read_size = buf_size then copy_input_conf room bufsiz (src.drop buf_size) w.1
  else some w.1
termination_by src.length
decreasing_by
  simp only [List.length_drop]
  have hlen : (List.take buf_size src).length = buf_size := _h
  rw [List.length_take] at hlen
  have hpos : 0 < buf_size := by decide
  omega

/-- The function `load_input_conf`.  `default_keybinds` stands for the macro
`DEFAULT_KEYBINDS` (the byte strings before its closing `NULL`); `input_conf` is the
pointer argument.  The result is `none` when a `g_error` stops the program; otherwise
it is the player, the disk once `fclose` has written the buffer out, and the calls
made, the last of which records whether `fclose` succeeded: the code does not look at
that result. -/
def load_input_conf (env : InputConfEnv) (default_keybinds : List (List Nat))
    (player : GmpvPlayer) (disk : Disk) (input_conf : Option String) :
    Option (GmpvPlayer × Disk × List Effect) :=
  let disk := match player.tmp_input_config with
    | some old => g_unlink disk old
    | Option.none => disk
  match g_file_open_tmp disk env.tmp_name with
  | Option.none => Option.none
  | some tmp_path =>
    let player := { player with tmp_input_config := some tmp_path }
    match write_default_keybinds env.room env.bufsiz default_keybinds
        { file := [], buffer := [] } with
    | Option.none => Option.none
    | some tmp_file =>
      let copied :=
        match input_conf with
        | some path =>
          if path.length > 0 then
            match env.src_file with
            | some src => copy_input_conf env.room env.bufsiz src tmp_file
            | Option.none => some tmp_file
          else some tmp_file
        | Option.none => some tmp_file
      match copied with
      | Option.none => Option.none
      | some tmp_file =>
        let closed := flush env.room tmp_file
        some (player, fun q => if q = tmp_path then some closed.1.file else disk q,
          [Effect.set_option_string "input-conf" tmp_path, Effect.fclose closed.2])

/-- The function `finalize`, as far as the disk goes: the temporary file, if there is
one, is unlinked. -/
def finalize (player : GmpvPlayer) (disk : Disk) : Disk :=
  match player.tmp_input_config with
  | some tmp_path => g_unlink disk tmp_path
  | Option.none => disk

/-- Successive calls of `load_input_conf` on one player, each with its own answers of
the operating system and its own `input_conf`.  The third component collects the names
of the temporary files created so far; the result is `none` when a call is stopped by
`g_error`. -/
def run_load_input_conf (default_keybinds : List (List Nat)) :
    GmpvPlayer × Disk × List String → List (InputConfEnv × Option String) →
      Option (GmpvPlayer × Disk × List String)
  | state, [] => some state
  | (player, disk, created), call :: rest =>
    match load_input_conf call.1 default_keybinds player disk call.2 with
    | Option.none => Option.none
    | some (player, disk, _) =>
      run_load_input_conf default_keybinds
        (player, disk, created ++ call.1.tmp_name.toList) rest

/-- Every default binding followed by a newline (the byte 10), in order. -/
def default_lines (default_keybinds : List (List Nat)) : List Nat :=
  default_keybinds.flatMap (fun keybind => keybind ++ [10])

/-- The bytes of the override file that belong in the temporary file: all of them when
`input_conf` is given, is not the empty string and can be opened, and none otherwise. -/
def override_bytes (env : InputConfEnv) (input_conf : Option String) : List Nat :=
  match input_conf with
  | some path => if path = "" then [] else env.src_file.getD []
  | Option.none => []

/-- Two default bindings, `AB` and `C`, as byte strings. -/
def sample_keybinds : List (List Nat) := [[65, 66], [67]]

/-- An override file of exactly two buffers: 131072 bytes, all equal to 7. -/
def big_override : List Nat := List.replicate (2 * buf_size) 7

/-- The answers of the operating system for a call that creates `/tmp/a`, has room for
a million bytes and opens the two-buffer override file. -/
def sample_conf_env : InputConfEnv :=
  { tmp_name := some "/tmp/a", room := 1000000, bufsiz := 4096,
    src_file := some big_override }

/-- A disk without any file. -/
def empty_disk : Disk := fun _ => Option.none

/-- Two successive calls: the first creates `/tmp/a` and copies the override file, the
second creates `/tmp/b` without an override. -/
def two_conf_calls : List (InputConfEnv × Option String) :=
  [ (sample_conf_env, some "input.conf"),
    ({ tmp_name := some "/tmp/b", room := 100, bufsiz := 4096, src_file := Option.none },
      Option.none) ]

/-- The answers of the operating system for a call whose new file `/tmp/a` can take
three bytes only, with a stream buffer of 4096 bytes and no override file. -/
def tight_conf_env : InputConfEnv :=
  { tmp_name := some "/tmp/a", room := 3, bufsiz := 4096, src_file := Option.none }

/-! # Proofs -/

/-! ## Fields of a map -/

theorem last_string_of_field_is (entries : mpv_node_list) (key : String) (o : Option String)
    (h : field_is entries key o) : last_string key entries = o := by
  cases o with
  | none =>
    have hf : entries.filter (fun kv => kv.1 = key) = [] := by
      rw [List.filter_eq_nil_iff]
      intro kv hkv
      simpa using h kv hkv
    simp [last_string, hf]
  | some s =>
    obtain ⟨hmem, hall⟩ := h
    have hne : entries.filter (fun kv => kv.1 = key) ≠ [] := by
      intro hnil
      rw [List.filter_eq_nil_iff] at hnil
      exact hnil _ hmem (by simp)
    obtain ⟨kv, hkv⟩ : ∃ kv, (entries.filter (fun kv => kv.1 = key)).getLast? = some kv := by
      cases hl : (entries.filter (fun kv => kv.1 = key)).getLast? with
      | none => exact absurd (List.getLast?_eq_none_iff.mp hl) hne
      | some kv => exact ⟨kv, rfl⟩
    have hin : kv ∈ entries.filter (fun kv => kv.1 = key) := List.mem_of_getLast?_eq_some hkv
    rw [List.mem_filter] at hin
    have hk : kv.1 = key := by simpa using hin.2
    have hv : kv.2 = MpvNode.string s := by
      apply hall
      rw [← hk]
      exact hin.1
    simp [last_string, hkv, hv, MpvNode.u_string]

theorem last_string_append_singleton (key : String) (entries : mpv_node_list)
    (kv : String × MpvNode) :
    last_string key (entries ++ [kv]) =
      if kv.1 = key then kv.2.u_string else last_string key entries := by
  unfold last_string
  by_cases h : kv.1 = key
  · simp [List.filter_append, h]
  · simp [List.filter_append, h]

/-! ## The cache rebuilds as maps over the engine's answer -/

theorem parse_playlist_entry_eq (node : mpv_node_list) :
    parse_playlist_entry node =
      { filename := last_string "filename" node, title := last_string "title" node } := by
  induction node using List.reverseRecOn with
  | nil => simp [parse_playlist_entry, last_string]
  | append_singleton node kv ih =>
    simp only [parse_playlist_entry, List.foldl_append, List.foldl_cons, List.foldl_nil,
      GmpvPlaylistEntry.mk.injEq] at ih ⊢
    rw [last_string_append_singleton, last_string_append_singleton]
    obtain ⟨h1, h2⟩ := ih
    by_cases hf : kv.1 = "filename"
    · have ht : kv.1 ≠ "title" := by rw [hf]; decide
      simp [hf, h2]
    · by_cases ht : kv.1 = "title"
      · simp [ht, h1]
      · simp [hf, ht, h1, h2]

theorem foldl_playlist_add (g : MpvNode → GmpvPlaylistEntry) (values : List MpvNode)
    (p : GmpvPlayer) :
    values.foldl (fun (p : GmpvPlayer) (v : MpvNode) =>
        { p with playlist := p.playlist ++ [g v] }) p =
      { p with playlist := p.playlist ++ values.map g } := by
  induction values generalizing p with
  | nil => simp
  | cons v vs ih => simp [ih]

theorem update_playlist_array (mpv : Engine) (player : GmpvPlayer) (values : List MpvNode)
    (h : mpv.node "playlist" = MpvNode.node_array values) :
    update_playlist mpv player =
      { player with playlist := values.map (fun v => parse_playlist_entry v.u_list) } := by
  simp [update_playlist, h, MpvNode.format, MpvNode.u_array, foldl_playlist_add]

/-! ## Playlist resync -/

/-- C1: when the engine's `playlist` answer is an array of maps, the cache after
`update_playlist` has the length of the array, and entry `i` carries the string the
`i`-th map gives to `filename` as its uri and the string it gives to `title` as its
title (`none` for an absent key), whatever the player held before. -/
theorem update_playlist_resync (mpv : Engine) (player : GmpvPlayer) (values : List MpvNode)
    (h_array : mpv.node "playlist" = MpvNode.node_array values)
    (h_maps : ∀ v ∈ values, ∃ entries, v = MpvNode.node_map entries) :
    (update_playlist mpv player).playlist.length = values.length ∧
    ∀ i, i < values.length →
      ∃ entries, values[i]? = some (MpvNode.node_map entries) ∧
        ∀ uri title, field_is entries "filename" uri → field_is entries "title" title →
          (update_playlist mpv player).playlist[i]? =
            some { filename := uri, title := title } := by
  rw [update_playlist_array mpv player values h_array]
  refine ⟨by simp, ?_⟩
  intro i hi
  obtain ⟨entries, he⟩ := h_maps values[i] (List.getElem_mem hi)
  refine ⟨entries, by simp [List.getElem?_eq_getElem hi, he], ?_⟩
  intro uri title hu ht
  simp only [List.getElem?_map, List.getElem?_eq_getElem hi, Option.map_some', he,
    MpvNode.u_list, parse_playlist_entry_eq]
  rw [last_string_of_field_is entries "filename" uri hu,
    last_string_of_field_is entries "title" title ht]

theorem update_playlist_resync_witness :
    (update_playlist
        (fixed_engine true false true 0 (MpvNode.node_array two_item_playlist)
          MpvNode.none MpvNode.none) stale_player).playlist.length = 2 ∧
    (update_playlist
        (fixed_engine true false true 0 (MpvNode.node_array two_item_playlist)
          MpvNode.none MpvNode.none) stale_player).playlist[0]? =
      some { filename := some "a.mp4", title := some "A" } ∧
    (update_playlist
        (fixed_engine true false true 0 (MpvNode.node_array two_item_playlist)
          MpvNode.none MpvNode.none) stale_player).playlist[1]? =
      some { filename := some "b.mp4", title := Option.none } := by
  have h := update_playlist_resync
    (fixed_engine true false true 0 (MpvNode.node_array two_item_playlist)
      MpvNode.none MpvNode.none) stale_player two_item_playlist
    (by simp [fixed_engine])
    (by intro v hv; simp [two_item_playlist] at hv; rcases hv with rfl | rfl <;> exact ⟨_, rfl⟩)
  refine ⟨h.1, ?_, ?_⟩
  · obtain ⟨entries, he, hf⟩ := h.2 0 (by simp [two_item_playlist])
    simp [two_item_playlist] at he
    subst he
    exact hf (some "a.mp4") (some "A") (by simp [field_is]) (by simp [field_is])
  · obtain ⟨entries, he, hf⟩ := h.2 1 (by simp [two_item_playlist])
    simp [two_item_playlist] at he
    subst he
    exact hf (some "b.mp4") Option.none (by simp [field_is]) (by simp [field_is])

/-! ## The playlist notification -/

/-- C3: a `playlist` notification handled while idle-active is false, with the cache
empty before the handler and non-empty after the resync, leaves the resynced cache
and issues exactly one write of `false` to `pause` (followed only by the parent
handler), so the trace holds exactly one pause write. -/
theorem playlist_changed_unpause (mpv : Engine) (player : GmpvPlayer) (value : Option Int)
    (h_idle : gmpv_mpv_get_property_flag mpv "idle-active" false = false)
    (h_before : player.playlist = [])
    (h_after : (update_playlist mpv player).playlist ≠ []) :
    (mpv_property_changed_handler mpv player "playlist" value).1 = update_playlist mpv player ∧
    (mpv_property_changed_handler mpv player "playlist" value).2 =
      [Effect.set_property_flag "pause" false,
       Effect.parent_mpv_property_changed "playlist" value] ∧
    (mpv_property_changed_handler mpv player "playlist" value).2.filter is_pause_write =
      [Effect.set_property_flag "pause" false] := by
  have hpos : 0 < (update_playlist mpv player).playlist.length :=
    List.length_pos.mpr h_after
  simp [mpv_property_changed_handler, h_idle, h_before, hpos, is_pause_write]

theorem playlist_changed_unpause_witness :
    (mpv_property_changed_handler
      (fixed_engine true false true 0 (MpvNode.node_array two_item_playlist)
        MpvNode.none MpvNode.none) gmpv_player_init "playlist" Option.none).2.filter
        is_pause_write =
      [Effect.set_property_flag "pause" false] :=
  (playlist_changed_unpause
    (fixed_engine true false true 0 (MpvNode.node_array two_item_playlist)
      MpvNode.none MpvNode.none) gmpv_player_init Option.none
    (by simp [gmpv_mpv_get_property_flag, fixed_engine])
    (by simp [gmpv_player_init])
    (by
      rw [update_playlist_array _ _ two_item_playlist (by simp [fixed_engine])]
      simp [two_item_playlist])).2.2

/-! ## Load-file requests -/

/-- C4: a `load_file (uri, append)` request arriving while the engine is idle-active
or the player is not ready issues no engine call and leaves the cache `[uri]` when
`append` is false, or the previous cache followed by `uri` when it is true; the other
fields of the player are untouched.  Two such requests in a row, the first without
append and the second with it, leave the cache holding exactly the two uris, in
order, and issue no call. -/
theorem load_file_stages (mpv : Engine) (player : GmpvPlayer) (uri : String) (append : Bool)
    (h : gmpv_mpv_get_property_flag mpv "idle-active" false = true ∨ mpv.ready = false) :
    (load_file mpv player uri append).2 = [] ∧
    (load_file mpv player uri append).1 =
      { player with
        playlist := (if append then player.playlist else []) ++
          [{ filename := some uri, title := Option.none }] } ∧
    ∀ (mpv2 : Engine) (uri2 : String),
      (gmpv_mpv_get_property_flag mpv2 "idle-active" false = true ∨ mpv2.ready = false) →
      run player [(mpv, Request.load_file uri false), (mpv2, Request.load_file uri2 true)] =
        ({ player with
           playlist := [{ filename := some uri, title := Option.none },
                        { filename := some uri2, title := Option.none }] }, []) := by
  have key : ∀ (m : Engine) (p : GmpvPlayer) (u : String) (a : Bool),
      (gmpv_mpv_get_property_flag m "idle-active" false = true ∨ m.ready = false) →
      load_file m p u a =
        ({ p with playlist := (if a then p.playlist else []) ++
            [{ filename := some u, title := Option.none }] }, []) := by
    intro m p u a hm
    rcases hm with h1 | h2
    · cases a <;> simp [load_file, h1, add_file_to_playlist]
    · cases a <;> simp [load_file, h2, add_file_to_playlist]
  refine ⟨by rw [key mpv player uri append h], by rw [key mpv player uri append h], ?_⟩
  intro mpv2 uri2 h2
  simp [run, step, key mpv player uri false h, key mpv2 _ uri2 true h2]

theorem load_file_stages_witness :
    run gmpv_player_init
        [(idle_engine, Request.load_file "a.mp4" false),
         (idle_engine, Request.load_file "b.mp4" true)] =
      (staged_player, []) :=
  (load_file_stages idle_engine gmpv_player_init "a.mp4" false
    (Or.inl (by simp [gmpv_mpv_get_property_flag, idle_engine, fixed_engine]))).2.2
    idle_engine "b.mp4"
    (Or.inl (by simp [gmpv_mpv_get_property_flag, idle_engine, fixed_engine]))

/-- C5: a `load_file (uri, append)` request is forwarded to the engine exactly when the
player is ready and the engine is not idle-active; when it is forwarded the trace is
the single parent `load_file` call with the same uri and the same append flag, and the
player, its playlist cache included, is unchanged. -/
theorem load_file_dispatch (mpv : Engine) (player : GmpvPlayer) (uri : String) (append : Bool) :
    ((∃ e ∈ (load_file mpv player uri append).2, is_parent_load_file e = true) ↔
      (mpv.ready = true ∧ gmpv_mpv_get_property_flag mpv "idle-active" false = false)) ∧
    ((mpv.ready = true ∧ gmpv_mpv_get_property_flag mpv "idle-active" false = false) →
      load_file mpv player uri append =
        (player, [Effect.parent_load_file (some uri) append])) := by
  cases hr : mpv.ready <;>
    cases hi : gmpv_mpv_get_property_flag mpv "idle-active" false <;>
    simp [load_file, hr, hi, is_parent_load_file]

theorem load_file_dispatch_witness :
    load_file (playing_engine 0) staged_player "c.mp4" true =
      (staged_player, [Effect.parent_load_file (some "c.mp4") true]) :=
  (load_file_dispatch (playing_engine 0) staged_player "c.mp4" true).2
    ⟨by simp [playing_engine, fixed_engine],
     by simp [gmpv_mpv_get_property_flag, playing_engine, fixed_engine]⟩

/-! ## Replay and reset -/

theorem engine_calls_load_files (n : Nat) (l : List GmpvPlaylistEntry) :
    engine_calls ((l.enumFrom n).map
        (fun (ie : Nat × GmpvPlaylistEntry) => Effect.parent_load_file ie.2.filename (ie.1 != 0))) =
      (l.enumFrom n).map
        (fun (ie : Nat × GmpvPlaylistEntry) => Effect.parent_load_file ie.2.filename (ie.1 != 0)) := by
  unfold engine_calls
  rw [List.filter_eq_self]
  intro e he
  rw [List.mem_map] at he
  obtain ⟨ie, _, rfl⟩ := he
  rfl

theorem engine_calls_load_from_playlist (player : GmpvPlayer) :
    engine_calls (load_from_playlist player) =
      player.playlist.enum.map
        (fun (ie : Nat × GmpvPlaylistEntry) => Effect.parent_load_file ie.2.filename (ie.1 != 0)) := by
  have h := engine_calls_load_files 0 player.playlist
  unfold load_from_playlist
  unfold engine_calls at h ⊢
  rw [List.filter_cons]
  simpa [List.enum] using h

/-- C6: for a cache of `n` entries `load_from_playlist` issues exactly `n` engine calls,
the `i`-th one being the parent `load_file` with the uri of entry `i` and with
`append = (i != 0)`; for the cache `[a.mp4, b.mp4]` these are `load_file (a.mp4, false)`
then `load_file (b.mp4, true)`. -/
theorem load_from_playlist_calls (player : GmpvPlayer) :
    (engine_calls (load_from_playlist player)).length = player.playlist.length ∧
    (∀ (i : Nat) (entry : GmpvPlaylistEntry), player.playlist[i]? = some entry →
      (engine_calls (load_from_playlist player))[i]? =
        some (Effect.parent_load_file entry.filename (i != 0))) ∧
    engine_calls (load_from_playlist staged_player) =
      [Effect.parent_load_file (some "a.mp4") false,
       Effect.parent_load_file (some "b.mp4") true] := by
  refine ⟨?_, ?_, ?_⟩
  · rw [engine_calls_load_from_playlist]
    simp
  · intro i entry h
    rw [engine_calls_load_from_playlist]
    simp [List.getElem?_enum, h]
  · rw [engine_calls_load_from_playlist]
    simp [staged_player, gmpv_player_init, List.enum, List.enumFrom]

/-- C7: `reset` reads idle-active and playlist-pos first and then issues, in this order,
the parent reset, a replay of the cache exactly when idle-active was false, and a write
of the captured position to `playlist-pos` exactly when that position is greater than
zero; the player itself is unchanged.  With idle-active false and position 4 the trace
is the reset, the replay, and the write of 4. -/
theorem reset_sequence (mpv : Engine) (player : GmpvPlayer) :
    (reset mpv player).1 = player ∧
    (reset mpv player).2 =
      Effect.parent_reset ::
        ((if gmpv_mpv_get_property_flag mpv "idle-active" false = false
            then load_from_playlist player else []) ++
         (if 0 < gmpv_mpv_get_property_int64 mpv "playlist-pos" 0
            then [Effect.set_property_int64 "playlist-pos"
                    (gmpv_mpv_get_property_int64 mpv "playlist-pos" 0)]
            else [])) ∧
    (reset (playing_engine 4) player).2 =
      Effect.parent_reset ::
        (load_from_playlist player ++ [Effect.set_property_int64 "playlist-pos" 4]) := by
  refine ⟨rfl, ?_, ?_⟩
  · cases hi : gmpv_mpv_get_property_flag mpv "idle-active" false <;>
      simp [reset, hi]
  · simp [reset, gmpv_mpv_get_property_flag, gmpv_mpv_get_property_int64, playing_engine,
      fixed_engine]

/-! ## Metadata resync -/

theorem foldl_metadata_add (entries : mpv_node_list) (p : GmpvPlayer) :
    entries.foldl
        (fun (p : GmpvPlayer) (kv : String × MpvNode) =>
          if kv.2.format = mpv_format.MPV_FORMAT_STRING then
            match kv.2.u_string with
            | some value => { p with metadata := p.metadata ++ [{ key := kv.1, value := value }] }
            | Option.none => p
          else p) p =
      { p with metadata := p.metadata ++ string_fields entries } := by
  induction entries generalizing p with
  | nil => simp [string_fields]
  | cons kv kvs ih =>
    rw [List.foldl_cons, ih]
    obtain ⟨k, v⟩ := kv
    cases v <;> simp [string_fields, MpvNode.format, MpvNode.u_string]

/-- C8: when the engine's `metadata` answer is a map, `update_metadata` leaves in the
metadata cache exactly the fields of the map whose value is a string, as (key, value)
pairs in the order of the map, and touches nothing else; for the map
`title = "Song", duration = 3.5` the cache is the single pair `(title, Song)`. -/
theorem update_metadata_string_fields (mpv : Engine) (player : GmpvPlayer)
    (entries : mpv_node_list) (h : mpv.node "metadata" = MpvNode.node_map entries) :
    update_metadata mpv player = { player with metadata := string_fields entries } ∧
    (entries = song_metadata →
      (update_metadata mpv player).metadata = [{ key := "title", value := "Song" }]) := by
  have main : update_metadata mpv player = { player with metadata := string_fields entries } := by
    have hf : (mpv.node "metadata").format = mpv_format.MPV_FORMAT_NODE_MAP := by
      rw [h]; rfl
    have hu : (mpv.node "metadata").u_list = entries := by
      rw [h]; rfl
    cases entries with
    | nil => simp [update_metadata, hu, string_fields]
    | cons kv kvs =>
      simp only [update_metadata, hf, hu, List.length_cons, gt_iff_lt, Nat.zero_lt_succ,
        and_self, if_true]
      rw [foldl_metadata_add]
      simp
  refine ⟨main, ?_⟩
  intro he
  rw [main, he]
  simp [string_fields, song_metadata]

theorem update_metadata_string_fields_witness :
    (update_metadata
        (fixed_engine true false true 0 MpvNode.none (MpvNode.node_map song_metadata)
          MpvNode.none) stale_player).metadata =
      [{ key := "title", value := "Song" }] :=
  (update_metadata_string_fields
    (fixed_engine true false true 0 MpvNode.none (MpvNode.node_map song_metadata) MpvNode.none)
    stale_player song_metadata (by simp [fixed_engine])).2 rfl

/-! ## Answers of an unexpected shape -/

/-- C10: when the engine's answer does not have the expected shape (an array for
`playlist` and `track-list`, a map for `metadata`), the corresponding rebuild leaves
its cache empty, whatever it held, and leaves every other field of the player, the
other two caches among them, as it was. -/
theorem unexpected_shape_empties (mpv : Engine) (player : GmpvPlayer) :
    ((mpv.node "playlist").format ≠ mpv_format.MPV_FORMAT_NODE_ARRAY →
      update_playlist mpv player = { player with playlist := [] }) ∧
    ((mpv.node "track-list").format ≠ mpv_format.MPV_FORMAT_NODE_ARRAY →
      update_track_list mpv player = { player with track_list := [] }) ∧
    ((mpv.node "metadata").format ≠ mpv_format.MPV_FORMAT_NODE_MAP →
      update_metadata mpv player = { player with metadata := [] }) := by
  refine ⟨?_, ?_, ?_⟩
  · intro h
    simp [update_playlist, h]
  · intro h
    simp [update_track_list, h]
  · intro h
    simp [update_metadata, h]

theorem unexpected_shape_empties_witness :
    update_playlist shapeless_engine stale_player = { stale_player with playlist := [] } ∧
    update_track_list shapeless_engine stale_player = { stale_player with track_list := [] } ∧
    update_metadata shapeless_engine stale_player = { stale_player with metadata := [] } :=
  ⟨(unexpected_shape_empties shapeless_engine stale_player).1
      (by simp [shapeless_engine, fixed_engine, MpvNode.format]),
   (unexpected_shape_empties shapeless_engine stale_player).2.1
      (by simp [shapeless_engine, fixed_engine, MpvNode.format]),
   (unexpected_shape_empties shapeless_engine stale_player).2.2
      (by simp [shapeless_engine, fixed_engine, MpvNode.format])⟩

/-! ## Frame of the cache rebuilds -/

theorem foldl_track_add (g : MpvNode → GmpvTrack) (values : List MpvNode) (p : GmpvPlayer) :
    values.foldl (fun (p : GmpvPlayer) (v : MpvNode) =>
        { p with track_list := p.track_list ++ [g v] }) p =
      { p with track_list := p.track_list ++ values.map g } := by
  induction values generalizing p with
  | nil => simp
  | cons v vs ih => simp [ih]

theorem update_playlist_frame (mpv : Engine) (player : GmpvPlayer) :
    update_playlist mpv player =
      { player with playlist := (update_playlist mpv player).playlist } := by
  unfold update_playlist
  by_cases h : (mpv.node "playlist").format = mpv_format.MPV_FORMAT_NODE_ARRAY
  · simp only [h, if_true]
    rw [foldl_playlist_add]
  · simp [h]

theorem update_metadata_frame (mpv : Engine) (player : GmpvPlayer) :
    update_metadata mpv player =
      { player with metadata := (update_metadata mpv player).metadata } := by
  unfold update_metadata
  by_cases h : (mpv.node "metadata").format = mpv_format.MPV_FORMAT_NODE_MAP ∧
      (mpv.node "metadata").u_list.length > 0
  · simp only [h, and_self, if_true]
    rw [foldl_metadata_add]
  · simp only [h, if_false]

theorem update_track_list_frame (mpv : Engine) (player : GmpvPlayer) :
    update_track_list mpv player =
      { player with track_list := (update_track_list mpv player).track_list } := by
  unfold update_track_list
  by_cases h : (mpv.node "track-list").format = mpv_format.MPV_FORMAT_NODE_ARRAY
  · simp only [h, if_true]
    rw [foldl_track_add]
  · simp [h]

theorem update_playlist_init_vo_config (mpv : Engine) (player : GmpvPlayer) :
    (update_playlist mpv player).init_vo_config = player.init_vo_config := by
  rw [update_playlist_frame]

theorem update_metadata_init_vo_config (mpv : Engine) (player : GmpvPlayer) :
    (update_metadata mpv player).init_vo_config = player.init_vo_config := by
  rw [update_metadata_frame]

theorem update_track_list_init_vo_config (mpv : Engine) (player : GmpvPlayer) :
    (update_track_list mpv player).init_vo_config = player.init_vo_config := by
  rw [update_track_list_frame]

/-! ## The bootstrap flag -/

theorem step_init_vo_config (player : GmpvPlayer) (op : Engine × Request) :
    (step player op).1.init_vo_config =
      (player.init_vo_config && !is_vo_configured op) := by
  obtain ⟨mpv, rq⟩ := op
  cases rq with
  | mpv_event event_id =>
    simp only [step, mpv_event_handler, is_vo_configured]
    split_ifs <;> simp [update_playlist_init_vo_config]
  | mpv_property_changed name value =>
    simp only [step, mpv_property_changed_handler, is_vo_configured]
    split_ifs <;>
      simp_all [update_playlist_init_vo_config, update_metadata_init_vo_config,
        update_track_list_init_vo_config]
  | load_file uri append =>
    simp only [step, load_file, is_vo_configured]
    split_ifs <;> simp [add_file_to_playlist]
  | reset => simp [step, reset, is_vo_configured]

theorem run_init_vo_config (player : GmpvPlayer) (ops : List (Engine × Request)) :
    (run player ops).1.init_vo_config =
      (player.init_vo_config && !ops.any is_vo_configured) := by
  induction ops generalizing player with
  | nil => simp [run]
  | cons op ops ih =>
    simp only [run, List.any_cons]
    rw [ih, step_init_vo_config]
    cases player.init_vo_config <;> cases is_vo_configured op <;> simp

/-- C9: `init_vo_config` is true on construction; once it is false it is false after
every further operation and after every further sequence of operations; and an
operation that changes it is a `vo-configured` property-change notification. -/
theorem init_vo_config_permanent :
    gmpv_player_init.init_vo_config = true ∧
    (∀ (player : GmpvPlayer) (op : Engine × Request),
      player.init_vo_config = false → (step player op).1.init_vo_config = false) ∧
    (∀ (player : GmpvPlayer) (ops : List (Engine × Request)),
      player.init_vo_config = false → (run player ops).1.init_vo_config = false) ∧
    (∀ (player : GmpvPlayer) (op : Engine × Request),
      (step player op).1.init_vo_config ≠ player.init_vo_config →
        ∃ value, op.2 = Request.mpv_property_changed "vo-configured" value) := by
  refine ⟨rfl, ?_, ?_, ?_⟩
  · intro player op h
    rw [step_init_vo_config, h]
    rfl
  · intro player ops h
    rw [run_init_vo_config, h]
    rfl
  · intro player op h
    rw [step_init_vo_config] at h
    obtain ⟨mpv, rq⟩ := op
    cases rq with
    | mpv_property_changed name value =>
      by_cases hn : name = "vo-configured"
      · exact ⟨value, by rw [hn]⟩
      · exact absurd (by simp [is_vo_configured, hn]) h
    | mpv_event event_id => exact absurd (by simp [is_vo_configured]) h
    | load_file uri append => exact absurd (by simp [is_vo_configured]) h
    | reset => exact absurd (by simp [is_vo_configured]) h

theorem init_vo_config_permanent_witness :
    (run (run gmpv_player_init (sample_session.take 2)).1
      (sample_session.drop 2)).1.init_vo_config = false :=
  init_vo_config_permanent.2.2.1 (run gmpv_player_init (sample_session.take 2)).1
    (sample_session.drop 2)
    (by
      rw [run_init_vo_config]
      simp [sample_session, is_vo_configured, gmpv_player_init])

/-! ## Counting routine runs -/

theorem count_enter_append (r : Routine) (xs ys : List Effect) :
    count_enter r (xs ++ ys) = count_enter r xs + count_enter r ys := by
  simp [count_enter, List.count_append]

theorem count_enter_load_from_playlist (r : Routine) (player : GmpvPlayer) :
    count_enter r (load_from_playlist player) =
      if r = Routine.load_from_playlist then 1 else 0 := by
  have hz : List.count (Effect.enter r) (player.playlist.enum.map
      (fun (ie : Nat × GmpvPlaylistEntry) =>
        Effect.parent_load_file ie.2.filename (ie.1 != 0))) = 0 := by
    rw [List.count_eq_zero]
    intro hmem
    rw [List.mem_map] at hmem
    obtain ⟨ie, _, h⟩ := hmem
    cases h
  unfold count_enter load_from_playlist
  rw [List.count_cons, hz]
  cases r <;> simp

theorem count_enter_load_scripts (r : Routine) (mpv : Engine) :
    count_enter r (load_scripts mpv) = if r = Routine.load_scripts then 1 else 0 := by
  unfold count_enter load_scripts
  rw [List.count_cons]
  have hz : List.count (Effect.enter r)
      (match mpv.scripts_dir with
        | some names =>
          (names.map some ++ [Option.none]).filterMap
            (fun (name : Option String) =>
              let full_path := g_build_filename mpv.scripts_dir_path name
              if mpv.is_regular full_path then some (Effect.command ["load-script", full_path])
              else Option.none)
        | Option.none => []) = 0 := by
    rw [List.count_eq_zero]
    intro hmem
    cases hd : mpv.scripts_dir with
    | none => simp [hd] at hmem
    | some names =>
      simp only [hd] at hmem
      rw [List.mem_filterMap] at hmem
      obtain ⟨name, _, h⟩ := hmem
      split_ifs at h
      cases h
  rw [hz]
  cases r <;> simp

theorem count_enter_nil (r : Routine) : count_enter r [] = 0 := rfl

theorem count_enter_cons (r : Routine) (e : Effect) (es : List Effect) :
    count_enter r (e :: es) = count_enter r es + if e = Effect.enter r then 1 else 0 := by
  simp [count_enter, List.count_cons]

theorem step_count_load_scripts (player : GmpvPlayer) (op : Engine × Request) :
    count_enter Routine.load_scripts (step player op).2 =
      if is_vo_configured op = true ∧ player.init_vo_config = true then 1 else 0 := by
  obtain ⟨mpv, rq⟩ := op
  cases rq with
  | mpv_event event_id =>
    simp [step, mpv_event_handler, is_vo_configured, count_enter_cons, count_enter_nil]
  | mpv_property_changed name value =>
    simp only [step, mpv_property_changed_handler, is_vo_configured]
    split_ifs <;>
      simp_all [count_enter_load_from_playlist, count_enter_load_scripts, count_enter_append,
        count_enter_cons, count_enter_nil]
  | load_file uri append =>
    simp only [step, load_file, is_vo_configured]
    split_ifs <;> simp_all [count_enter_cons, count_enter_nil]
  | reset =>
    cases hi : gmpv_mpv_get_property_flag mpv "idle-active" false <;>
      by_cases hp : gmpv_mpv_get_property_int64 mpv "playlist-pos" 0 > 0 <;>
      simp [step, reset, is_vo_configured, hi, hp, count_enter_append, count_enter_cons,
        count_enter_nil, count_enter_load_from_playlist]

theorem step_count_load_from_playlist (player : GmpvPlayer) (op : Engine × Request) :
    count_enter Routine.load_from_playlist (step player op).2 =
      if (is_vo_configured op = true ∧ player.init_vo_config = true) ∨
          is_reset_not_idle op = true ∨
          (is_unpause_while_idle op = true ∧ player.init_vo_config = false) then 1 else 0 := by
  obtain ⟨mpv, rq⟩ := op
  cases rq with
  | mpv_event event_id =>
    simp [step, mpv_event_handler, is_vo_configured, is_reset_not_idle, is_unpause_while_idle,
      count_enter_cons, count_enter_nil]
  | mpv_property_changed name value =>
    simp only [step, mpv_property_changed_handler, is_vo_configured, is_reset_not_idle,
      is_unpause_while_idle]
    rcases value with _ | v <;>
      by_cases hi : gmpv_mpv_get_property_flag mpv "idle-active" false = true <;>
      by_cases hv : player.init_vo_config = true <;>
      split_ifs <;>
      simp_all [count_enter_load_from_playlist, count_enter_load_scripts, count_enter_append,
        count_enter_cons, count_enter_nil]
  | load_file uri append =>
    simp only [step, load_file, is_vo_configured, is_reset_not_idle, is_unpause_while_idle]
    split_ifs <;> simp_all [count_enter_cons, count_enter_nil]
  | reset =>
    cases hi : gmpv_mpv_get_property_flag mpv "idle-active" false <;>
      by_cases hp : gmpv_mpv_get_property_int64 mpv "playlist-pos" 0 > 0 <;>
      simp [step, reset, is_vo_configured, is_reset_not_idle, is_unpause_while_idle, hi, hp,
        count_enter_append, count_enter_cons, count_enter_nil, count_enter_load_from_playlist]

/-! ## Totals over a sequence of operations -/

theorem is_vo_configured_exclusive (op : Engine × Request) (h : is_vo_configured op = true) :
    is_reset_not_idle op = false ∧ is_unpause_while_idle op = false := by
  obtain ⟨mpv, rq⟩ := op
  cases rq with
  | mpv_property_changed name value =>
    have hn : name = "vo-configured" := by simpa [is_vo_configured] using h
    subst hn
    simp [is_reset_not_idle, is_unpause_while_idle]
  | mpv_event event_id => simp [is_vo_configured] at h
  | load_file uri append => simp [is_vo_configured] at h
  | reset => simp [is_vo_configured] at h

theorem is_reset_not_idle_exclusive (op : Engine × Request) (h : is_reset_not_idle op = true) :
    is_unpause_while_idle op = false := by
  obtain ⟨mpv, rq⟩ := op
  cases rq <;> simp_all [is_reset_not_idle, is_unpause_while_idle]

theorem unpauses_after_bootstrap_cons (op : Engine × Request) (ops : List (Engine × Request)) :
    unpauses_after_bootstrap (op :: ops) =
      if is_vo_configured op = true then ops.filter is_unpause_while_idle
      else unpauses_after_bootstrap ops := by
  unfold unpauses_after_bootstrap
  by_cases h : is_vo_configured op = true
  · have hu := (is_vo_configured_exclusive op h).2
    simp [List.dropWhile_cons, h, List.filter_cons, hu]
  · simp [List.dropWhile_cons, h]

theorem run_count_load_scripts (player : GmpvPlayer) (ops : List (Engine × Request)) :
    count_enter Routine.load_scripts (run player ops).2 =
      if player.init_vo_config = true ∧ ops.any is_vo_configured = true then 1 else 0 := by
  induction ops generalizing player with
  | nil => simp [run, count_enter_nil]
  | cons op ops ih =>
    simp only [run, count_enter_append, List.any_cons]
    rw [ih, step_count_load_scripts, step_init_vo_config]
    rcases Bool.eq_false_or_eq_true player.init_vo_config with hp | hp <;>
      rcases Bool.eq_false_or_eq_true (is_vo_configured op) with hv | hv <;>
      rcases Bool.eq_false_or_eq_true (ops.any is_vo_configured) with ha | ha <;>
      simp [hp, hv, ha]

theorem run_count_load_from_playlist (player : GmpvPlayer) (ops : List (Engine × Request)) :
    count_enter Routine.load_from_playlist (run player ops).2 =
      (if player.init_vo_config = true ∧ ops.any is_vo_configured = true then 1 else 0) +
        (ops.filter is_reset_not_idle).length +
        (if player.init_vo_config = true then (unpauses_after_bootstrap ops).length
          else (ops.filter is_unpause_while_idle).length) := by
  induction ops generalizing player with
  | nil => simp [run, count_enter_nil, unpauses_after_bootstrap]
  | cons op ops ih =>
    simp only [run, count_enter_append, List.any_cons]
    rw [ih, step_count_load_from_playlist, step_init_vo_config, unpauses_after_bootstrap_cons]
    rcases Bool.eq_false_or_eq_true (is_vo_configured op) with hv | hv
    · obtain ⟨hr, hu⟩ := is_vo_configured_exclusive op hv
      rcases Bool.eq_false_or_eq_true player.init_vo_config with hp | hp <;>
        simp [hp, hv, hr, hu, List.filter_cons]
      omega
    · rcases Bool.eq_false_or_eq_true (is_reset_not_idle op) with hr | hr
      · have hu := is_reset_not_idle_exclusive op hr
        rcases Bool.eq_false_or_eq_true player.init_vo_config with hp | hp <;>
          rcases Bool.eq_false_or_eq_true (ops.any is_vo_configured) with ha | ha <;>
          simp [hp, hv, hr, hu, ha, List.filter_cons] <;> omega
      · rcases Bool.eq_false_or_eq_true player.init_vo_config with hp | hp <;>
          rcases Bool.eq_false_or_eq_true (ops.any is_vo_configured) with ha | ha <;>
          rcases Bool.eq_false_or_eq_true (is_unpause_while_idle op) with hu | hu <;>
          simp [hp, hv, hr, hu, ha, List.filter_cons] <;> omega

/-! ## The bootstrap law -/

/-- C2, as stated, fails.  On a fresh player the bootstrap notification followed by a
`pause` notification with value "not paused" while the engine is idle-active runs
`load_from_playlist` twice; a reset taken while the engine is not idle-active runs it
once although the sequence holds no `vo-configured` notification; so it is not true
that every sequence runs each of the two routines exactly once. -/
theorem bootstrap_law_counterexample :
    count_enter Routine.load_from_playlist (run gmpv_player_init unpause_session).2 = 2 ∧
    (reset_session.any is_vo_configured = false ∧
      count_enter Routine.load_from_playlist (run gmpv_player_init reset_session).2 = 1) ∧
    ¬ (∀ ops : List (Engine × Request),
        count_enter Routine.load_scripts (run gmpv_player_init ops).2 = 1 ∧
        count_enter Routine.load_from_playlist (run gmpv_player_init ops).2 = 1) := by
  have h2 : count_enter Routine.load_from_playlist
      (run gmpv_player_init unpause_session).2 = 2 := by
    simp [unpause_session, run, step, mpv_property_changed_handler, gmpv_player_init,
      idle_ready_engine, fixed_engine, gmpv_mpv_get_property_flag, load_scripts,
      load_from_playlist, g_build_filename, count_enter, List.enum, List.enumFrom]
  refine ⟨h2, ⟨by simp [reset_session, is_vo_configured], ?_⟩, ?_⟩
  · simp [reset_session, run, step, reset, gmpv_player_init, playing_engine, fixed_engine,
      gmpv_mpv_get_property_flag, gmpv_mpv_get_property_int64, load_from_playlist,
      count_enter, List.enum, List.enumFrom]
  · intro h
    have h1 := (h unpause_session).2
    rw [h2] at h1
    exact absurd h1 (by decide)

/-- C2, amended.  For every sequence of operations on a fresh player: `load_scripts`
is run once if the sequence holds a `vo-configured` notification and not at all
otherwise, and the operation that runs it is the first such notification.
`load_from_playlist` is run once by that first notification, once by every reset taken
while the engine is not idle-active, once by every `pause` notification with value
"not paused" and idle-active true that comes after the first `vo-configured`
notification, and by nothing else. -/
theorem bootstrap_law_amended (ops : List (Engine × Request)) :
    count_enter Routine.load_scripts (run gmpv_player_init ops).2 =
      (if ops.any is_vo_configured = true then 1 else 0) ∧
    count_enter Routine.load_from_playlist (run gmpv_player_init ops).2 =
      (if ops.any is_vo_configured = true then 1 else 0) +
        (ops.filter is_reset_not_idle).length + (unpauses_after_bootstrap ops).length ∧
    (∀ op : Engine × Request,
      count_enter Routine.load_scripts (step (run gmpv_player_init ops).1 op).2 =
        if is_vo_configured op = true ∧ ops.any is_vo_configured = false then 1 else 0) ∧
    (∀ op : Engine × Request,
      count_enter Routine.load_from_playlist (step (run gmpv_player_init ops).1 op).2 =
        if (is_vo_configured op = true ∧ ops.any is_vo_configured = false) ∨
            is_reset_not_idle op = true ∨
            (is_unpause_while_idle op = true ∧ ops.any is_vo_configured = true)
        then 1 else 0) := by
  have hinit : (run gmpv_player_init ops).1.init_vo_config = !ops.any is_vo_configured := by
    rw [run_init_vo_config]
    simp [gmpv_player_init]
  have hfresh : gmpv_player_init.init_vo_config = true := rfl
  refine ⟨?_, ?_, ?_, ?_⟩
  · rw [run_count_load_scripts, hfresh]
    rcases Bool.eq_false_or_eq_true (ops.any is_vo_configured) with ha | ha <;> simp [ha]
  · rw [run_count_load_from_playlist, hfresh]
    rcases Bool.eq_false_or_eq_true (ops.any is_vo_configured) with ha | ha <;> simp [ha]
  · intro op
    rw [step_count_load_scripts, hinit]
    rcases Bool.eq_false_or_eq_true (ops.any is_vo_configured) with ha | ha <;> simp [ha]
  · intro op
    rw [step_count_load_from_playlist, hinit]
    rcases Bool.eq_false_or_eq_true (ops.any is_vo_configured) with ha | ha <;> simp [ha]

/-! ## Idempotence of the cache rebuilds -/

theorem update_playlist_cache_independent (mpv : Engine) (p q : GmpvPlayer) :
    (update_playlist mpv p).playlist = (update_playlist mpv q).playlist := by
  unfold update_playlist
  by_cases h : (mpv.node "playlist").format = mpv_format.MPV_FORMAT_NODE_ARRAY
  · simp only [h, if_true]
    rw [foldl_playlist_add, foldl_playlist_add]
  · simp [h]

theorem update_metadata_cache_independent (mpv : Engine) (p q : GmpvPlayer) :
    (update_metadata mpv p).metadata = (update_metadata mpv q).metadata := by
  unfold update_metadata
  by_cases h : (mpv.node "metadata").format = mpv_format.MPV_FORMAT_NODE_MAP ∧
      (mpv.node "metadata").u_list.length > 0
  · simp only [h, and_self, if_true]
    rw [foldl_metadata_add, foldl_metadata_add]
  · simp only [h, if_false]

theorem update_track_list_cache_independent (mpv : Engine) (p q : GmpvPlayer) :
    (update_track_list mpv p).track_list = (update_track_list mpv q).track_list := by
  unfold update_track_list
  by_cases h : (mpv.node "track-list").format = mpv_format.MPV_FORMAT_NODE_ARRAY
  · simp only [h, if_true]
    rw [foldl_track_add, foldl_track_add]
  · simp [h]

/-- C11: with the engine's answers fixed, running `update_playlist` twice in a row
leaves the player exactly as running it once does, and likewise for `update_metadata`
and `update_track_list`; in particular the cache contents are the same. -/
theorem resync_idempotent (mpv : Engine) (player : GmpvPlayer) :
    update_playlist mpv (update_playlist mpv player) = update_playlist mpv player ∧
    update_metadata mpv (update_metadata mpv player) = update_metadata mpv player ∧
    update_track_list mpv (update_track_list mpv player) = update_track_list mpv player := by
  refine ⟨?_, ?_, ?_⟩
  · rw [update_playlist_frame mpv (update_playlist mpv player),
      update_playlist_cache_independent mpv (update_playlist mpv player) player]
  · rw [update_metadata_frame mpv (update_metadata mpv player),
      update_metadata_cache_independent mpv (update_metadata mpv player) player]
  · rw [update_track_list_frame mpv (update_track_list mpv player),
      update_track_list_cache_independent mpv (update_track_list mpv player) player]

/-! ## The `vo-configured` notification -/

theorem vo_configured_pending (mpv : Engine) (player : GmpvPlayer) (value : Option Int)
    (h : player.init_vo_config = true) :
    mpv_property_changed_handler mpv player "vo-configured" value =
      ({ player with init_vo_config := false },
        load_scripts mpv ++ load_from_playlist player ++
          [Effect.parent_mpv_property_changed "vo-configured" value]) := by
  simp [mpv_property_changed_handler, h, load_from_playlist]

theorem vo_configured_done (mpv : Engine) (player : GmpvPlayer) (value : Option Int)
    (h : player.init_vo_config = false) :
    mpv_property_changed_handler mpv player "vo-configured" value =
      (player, [Effect.parent_mpv_property_changed "vo-configured" value]) := by
  simp [mpv_property_changed_handler, h]

/-- C12: the handler departs from the claim.  A `vo-configured` notification carrying
the value false (a pointer to the int zero), handled while `init_vo_config` is true,
clears `init_vo_config`, runs `load_scripts` and replays the two staged files, where the
claim has it leave the flag true, load no script and replay nothing: the branch never
reads the notified value, although the comment in `mpv_event_handler` has the saved
playlist loaded again "when the vo is configured". -/
theorem vo_configured_false_runs_transition :
    staged_player.init_vo_config = true ∧
    (mpv_property_changed_handler idle_engine staged_player "vo-configured" (some 0)).1.init_vo_config
      = false ∧
    (mpv_property_changed_handler idle_engine staged_player "vo-configured" (some 0)).2 =
      [Effect.enter Routine.load_scripts,
       Effect.enter Routine.load_from_playlist,
       Effect.parent_load_file (some "a.mp4") false,
       Effect.parent_load_file (some "b.mp4") true,
       Effect.parent_mpv_property_changed "vo-configured" (some 0)] := by
  refine ⟨rfl, ?_, ?_⟩
  · simp [mpv_property_changed_handler, staged_player, gmpv_player_init]
  · simp [mpv_property_changed_handler, staged_player, gmpv_player_init, idle_engine,
      fixed_engine, load_scripts, load_from_playlist, g_build_filename, List.enum,
      List.enumFrom]

theorem load_scripts_no_load_file (mpv : Engine) (e : Effect) (h : e ∈ load_scripts mpv) :
    is_parent_load_file e = false := by
  unfold load_scripts at h
  rw [List.mem_cons] at h
  rcases h with rfl | h
  · rfl
  · cases hd : mpv.scripts_dir with
    | none => simp [hd] at h
    | some names =>
      simp only [hd] at h
      rw [List.mem_filterMap] at h
      obtain ⟨name, _, hn⟩ := h
      split_ifs at hn
      cases hn
      rfl

theorem load_from_playlist_no_command (player : GmpvPlayer) (e : Effect)
    (h : e ∈ load_from_playlist player) : is_command e = false := by
  unfold load_from_playlist at h
  rw [List.mem_cons] at h
  rcases h with rfl | h
  · rfl
  · rw [List.mem_map] at h
    obtain ⟨ie, _, rfl⟩ := h
    rfl

theorem commands_before_load_files (scripts replay : List Effect) (last : Effect)
    (hs : ∀ e ∈ scripts, is_parent_load_file e = false)
    (hr : ∀ e ∈ replay, is_command e = false)
    (hl : is_command last = false)
    (i j : Nat) (c u : Effect)
    (hi : (scripts ++ replay ++ [last])[i]? = some c) (hc : is_command c = true)
    (hj : (scripts ++ replay ++ [last])[j]? = some u) (hu : is_parent_load_file u = true) :
    i < j := by
  rw [List.append_assoc] at hi hj
  have hi' : i < scripts.length := by
    by_contra hge
    rw [List.getElem?_append_right (Nat.le_of_not_lt hge)] at hi
    have hmem := List.getElem?_mem hi
    rw [List.mem_append, List.mem_singleton] at hmem
    rcases hmem with hm | hm
    · rw [hr c hm] at hc
      cases hc
    · rw [hm, hl] at hc
      cases hc
  have hj' : scripts.length ≤ j := by
    by_contra hlt
    rw [List.getElem?_append_left (Nat.lt_of_not_le hlt)] at hj
    have hmem := List.getElem?_mem hj
    rw [hs u hmem] at hu
    cases hu
  omega

/-- C13: a `vo-configured` notification handled while `init_vo_config` is true clears
the flag, then runs `load_scripts`, then replays the cache with `load_from_playlist`
(the caches are untouched), so in its trace every command comes before every parent
`load_file` call; handled while `init_vo_config` is false it leaves the player as it
was and issues nothing but the call of the parent handler. -/
theorem vo_configured_action_order (mpv : Engine) (player : GmpvPlayer) (value : Option Int) :
    (player.init_vo_config = true →
      mpv_property_changed_handler mpv player "vo-configured" value =
        ({ player with init_vo_config := false },
          load_scripts mpv ++ load_from_playlist player ++
            [Effect.parent_mpv_property_changed "vo-configured" value]) ∧
      ∀ (i j : Nat) (c u : Effect),
        (mpv_property_changed_handler mpv player "vo-configured" value).2[i]? = some c →
        is_command c = true →
        (mpv_property_changed_handler mpv player "vo-configured" value).2[j]? = some u →
        is_parent_load_file u = true → i < j) ∧
    (player.init_vo_config = false →
      mpv_property_changed_handler mpv player "vo-configured" value =
        (player, [Effect.parent_mpv_property_changed "vo-configured" value])) := by
  refine ⟨?_, vo_configured_done mpv player value⟩
  intro h
  refine ⟨vo_configured_pending mpv player value h, ?_⟩
  rw [vo_configured_pending mpv player value h]
  intro i j c u hi hc hj hu
  exact commands_before_load_files (load_scripts mpv) (load_from_playlist player)
    (Effect.parent_mpv_property_changed "vo-configured" value)
    (load_scripts_no_load_file mpv) (load_from_playlist_no_command player) rfl
    i j c u hi hc hj hu

theorem vo_configured_action_order_witness :
    mpv_property_changed_handler scripts_engine staged_player "vo-configured" (some 1) =
      ({ staged_player with init_vo_config := false },
        [Effect.enter Routine.load_scripts,
         Effect.command ["load-script", "scripts/osc.lua"],
         Effect.command ["load-script", "scripts/autoload.lua"],
         Effect.enter Routine.load_from_playlist,
         Effect.parent_load_file (some "a.mp4") false,
         Effect.parent_load_file (some "b.mp4") true,
         Effect.parent_mpv_property_changed "vo-configured" (some 1)]) := by
  rw [((vo_configured_action_order scripts_engine staged_player (some 1)).1 rfl).1]
  simp [scripts_engine, idle_ready_engine, fixed_engine, staged_player, gmpv_player_init,
    load_scripts, load_from_playlist, g_build_filename, List.enum, List.enumFrom]

/-! ## Replay against an engine playlist -/

theorem engine_playlist_after_appends (l : List GmpvPlaylistEntry) (n : Nat)
    (acc : List (Option String)) :
    engine_playlist_after acc
        ((l.enumFrom (n + 1)).map
          (fun (ie : Nat × GmpvPlaylistEntry) =>
            Effect.parent_load_file ie.2.filename (ie.1 != 0))) =
      acc ++ l.map (fun entry => entry.filename) := by
  induction l generalizing n acc with
  | nil => simp [engine_playlist_after]
  | cons entry rest ih =>
    have h := ih (n + 1) (acc ++ [entry.filename])
    unfold engine_playlist_after at h ⊢
    simp only [List.enumFrom, List.map_cons, List.foldl_cons, engine_apply]
    rw [show ((n + 1 != 0) = true) by simp]
    simp only [if_true]
    rw [h]
    simp

/-- C14, as stated, fails for the empty cache: `load_from_playlist` then issues no call,
so an engine playlist holding `x.mkv` still holds it afterwards and does not equal the
(empty) sequence of uris of the cache. -/
theorem replay_rebuild_counterexample :
    gmpv_player_init.playlist.map (fun entry => entry.filename) = [] ∧
    engine_playlist_after [some "x.mkv"] (load_from_playlist gmpv_player_init) =
      [some "x.mkv"] ∧
    engine_playlist_after [some "x.mkv"] (load_from_playlist gmpv_player_init) ≠
      gmpv_player_init.playlist.map (fun entry => entry.filename) := by
  have h : engine_playlist_after [some "x.mkv"] (load_from_playlist gmpv_player_init) =
      [some "x.mkv"] := by
    simp [engine_playlist_after, load_from_playlist, gmpv_player_init, engine_apply,
      List.enum, List.enumFrom]
  refine ⟨rfl, h, ?_⟩
  rw [h]
  simp [gmpv_player_init]

/-- C14, amended: under the engine model in which `load_file` without append replaces
the engine playlist by the given item and `load_file` with append adds the item at the
end, for every non-empty cache and every initial engine playlist the engine playlist
after `load_from_playlist` is the sequence of uris of the cache, in order; for the
empty cache no call is issued and the engine playlist stays as it was. -/
theorem replay_rebuilds_engine_playlist (player : GmpvPlayer)
    (initial : List (Option String)) :
    (player.playlist ≠ [] →
      engine_playlist_after initial (load_from_playlist player) =
        player.playlist.map (fun entry => entry.filename)) ∧
    (player.playlist = [] →
      engine_calls (load_from_playlist player) = [] ∧
      engine_playlist_after initial (load_from_playlist player) = initial) := by
  constructor
  · intro hne
    cases hp : player.playlist with
    | nil => exact absurd hp hne
    | cons entry rest =>
      have h := engine_playlist_after_appends rest 0 [entry.filename]
      unfold engine_playlist_after at h ⊢
      simp only [load_from_playlist, hp, List.enum, List.enumFrom, List.map_cons,
        List.foldl_cons, engine_apply]
      simp only [Nat.zero_add] at h
      simpa using h
  · intro he
    simp [engine_playlist_after, load_from_playlist, he, engine_apply, engine_calls,
      List.enum, List.enumFrom]

theorem replay_rebuilds_engine_playlist_witness :
    engine_playlist_after [some "x.mkv", some "y.mkv"] (load_from_playlist staged_player) =
      [some "a.mp4", some "b.mp4"] :=
  (replay_rebuilds_engine_playlist staged_player [some "x.mkv", some "y.mkv"]).1
    (by simp [staged_player])

/-! ## Load-file requests on a ready player -/

/-- C15, as stated, fails: with the player ready but the engine idle-active, a
`load_file` request is staged at the end of the cache and nothing is forwarded; and a
request is also staged when the engine is not idle-active but the player is not ready. -/
theorem load_file_ready_counterexample :
    idle_ready_engine.ready = true ∧
    load_file idle_ready_engine staged_player "c.mp4" true =
      ({ staged_player with
         playlist := staged_player.playlist ++
           [{ filename := some "c.mp4", title := Option.none }] }, []) ∧
    gmpv_mpv_get_property_flag unready_playing_engine "idle-active" false = false ∧
    load_file unready_playing_engine staged_player "c.mp4" true =
      ({ staged_player with
         playlist := staged_player.playlist ++
           [{ filename := some "c.mp4", title := Option.none }] }, []) := by
  refine ⟨rfl, ?_, ?_, ?_⟩
  · simp [load_file, idle_ready_engine, fixed_engine, gmpv_mpv_get_property_flag,
      add_file_to_playlist]
  · simp [unready_playing_engine, fixed_engine, gmpv_mpv_get_property_flag]
  · simp [load_file, unready_playing_engine, fixed_engine, gmpv_mpv_get_property_flag,
      add_file_to_playlist]

/-- C15, amended: once the player is ready and the engine is not idle-active, a
`load_file (uri, append)` request is forwarded to the engine unchanged (one parent
`load_file` call with the same uri and append flag) and the cache is not touched; a
request is staged into the cache, with no call issued, exactly when the engine is
idle-active or the player is not ready. -/
theorem load_file_ready_forwarding (mpv : Engine) (player : GmpvPlayer) (uri : String)
    (append : Bool) :
    ((mpv.ready = true ∧ gmpv_mpv_get_property_flag mpv "idle-active" false = false) →
      (load_file mpv player uri append).1 = player ∧
      (load_file mpv player uri append).2 = [Effect.parent_load_file (some uri) append]) ∧
    (((load_file mpv player uri append).2 = [] ∧
      (load_file mpv player uri append).1 =
        { player with
          playlist := (if append then player.playlist else []) ++
            [{ filename := some uri, title := Option.none }] }) ↔
      (gmpv_mpv_get_property_flag mpv "idle-active" false = true ∨ mpv.ready = false)) := by
  rcases Bool.eq_false_or_eq_true mpv.ready with hr | hr <;>
    rcases Bool.eq_false_or_eq_true (gmpv_mpv_get_property_flag mpv "idle-active" false)
      with hi | hi <;>
    cases append <;>
    simp [load_file, hr, hi, add_file_to_playlist]

theorem load_file_ready_forwarding_witness :
    (load_file (playing_engine 2) staged_player "c.mp4" false).1 = staged_player ∧
    (load_file (playing_engine 2) staged_player "c.mp4" false).2 =
      [Effect.parent_load_file (some "c.mp4") false] :=
  (load_file_ready_forwarding (playing_engine 2) staged_player "c.mp4" false).1
    ⟨by simp [playing_engine, fixed_engine],
     by simp [gmpv_mpv_get_property_flag, playing_engine, fixed_engine]⟩

/-! ## The pause rule -/

/-- C16: a `pause` notification replays the cache exactly when the engine reports
idle-active true, the notified value is "not paused" (a pointer to the int zero; a
notification without value counts as paused) and `init_vo_config` is already false;
then the trace is the replay followed by the parent handler, otherwise the parent
handler alone; in every case the player (its three caches and `init_vo_config`) is
unchanged. -/
theorem pause_rule (mpv : Engine) (player : GmpvPlayer) (value : Option Int) :
    (mpv_property_changed_handler mpv player "pause" value).1 = player ∧
    (0 < count_enter Routine.load_from_playlist
          (mpv_property_changed_handler mpv player "pause" value).2 ↔
      (gmpv_mpv_get_property_flag mpv "idle-active" false = true ∧ value = some 0 ∧
        player.init_vo_config = false)) ∧
    (mpv_property_changed_handler mpv player "pause" value).2 =
      (if gmpv_mpv_get_property_flag mpv "idle-active" false = true ∧ value = some 0 ∧
          player.init_vo_config = false
        then load_from_playlist player else []) ++
      [Effect.parent_mpv_property_changed "pause" value] ∧
    mpv_property_changed_handler mpv player "pause" Option.none =
      (player, [Effect.parent_mpv_property_changed "pause" Option.none]) := by
  refine ⟨?_, ?_, ?_, ?_⟩
  · simp only [mpv_property_changed_handler, if_true]
    split_ifs <;> rfl
  · rcases value with _ | v <;>
      rcases Bool.eq_false_or_eq_true (gmpv_mpv_get_property_flag mpv "idle-active" false)
        with hi | hi <;>
      rcases Bool.eq_false_or_eq_true player.init_vo_config with hv | hv <;>
      simp only [mpv_property_changed_handler, if_true] <;>
      split_ifs <;>
      simp_all [count_enter_append, count_enter_cons, count_enter_nil,
        count_enter_load_from_playlist]
  · rcases value with _ | v <;>
      rcases Bool.eq_false_or_eq_true (gmpv_mpv_get_property_flag mpv "idle-active" false)
        with hi | hi <;>
      rcases Bool.eq_false_or_eq_true player.init_vo_config with hv | hv <;>
      simp only [mpv_property_changed_handler, if_true] <;>
      split_ifs <;>
      simp_all
  · simp [mpv_property_changed_handler]

/-! ## The playlist notification while idle -/

theorem load_from_playlist_no_pause_write (player : GmpvPlayer) (e : Effect)
    (h : e ∈ load_from_playlist player) : is_pause_write e = false := by
  unfold load_from_playlist at h
  rw [List.mem_cons] at h
  rcases h with rfl | h
  · rfl
  · rw [List.mem_map] at h
    obtain ⟨ie, _, rfl⟩ := h
    rfl

theorem load_scripts_no_pause_write (mpv : Engine) (e : Effect) (h : e ∈ load_scripts mpv) :
    is_pause_write e = false := by
  unfold load_scripts at h
  rw [List.mem_cons] at h
  rcases h with rfl | h
  · rfl
  · cases hd : mpv.scripts_dir with
    | none => simp [hd] at h
    | some names =>
      simp only [hd] at h
      rw [List.mem_filterMap] at h
      obtain ⟨name, _, hn⟩ := h
      split_ifs at hn
      cases hn
      rfl

/-- C20: a `playlist` notification handled while the engine reports idle-active true
leaves the player, its playlist cache included, exactly as it was and issues only the
call of the parent handler, hence no write to `pause`, whatever the engine's playlist
holds.  For every notification, of any name and value, a write to `pause` in the
handler's trace is a write of false, and there is one only if the cache was empty
before the handler and is non-empty after it. -/
theorem playlist_changed_idle_frame (mpv : Engine) (player : GmpvPlayer) (value : Option Int) :
    (gmpv_mpv_get_property_flag mpv "idle-active" false = true →
      mpv_property_changed_handler mpv player "playlist" value =
        (player, [Effect.parent_mpv_property_changed "playlist" value])) ∧
    (∀ (name : String) (e : Effect),
      e ∈ (mpv_property_changed_handler mpv player name value).2 → is_pause_write e = true →
        e = Effect.set_property_flag "pause" false ∧
        player.playlist = [] ∧
        (mpv_property_changed_handler mpv player name value).1.playlist ≠ []) := by
  constructor
  · intro hi
    have hlen : ¬ (player.playlist = [] ∧ 0 < player.playlist.length) := by
      rintro ⟨h0, h1⟩
      rw [h0] at h1
      exact absurd h1 (by decide)
    simp [mpv_property_changed_handler, hi, hlen]
  · intro name e he hp
    simp only [mpv_property_changed_handler] at he ⊢
    rw [List.mem_append, List.mem_singleton] at he
    rcases he with he | he
    · split_ifs at he ⊢ <;>
        first
        | (exact absurd he (List.not_mem_nil e))
        | (have hn := load_from_playlist_no_pause_write _ e he
           rw [hn] at hp
           cases hp)
        | (rw [List.mem_append] at he
           rcases he with he | he
           · have hn := load_scripts_no_pause_write _ e he
             rw [hn] at hp
             cases hp
           · have hn := load_from_playlist_no_pause_write _ e he
             rw [hn] at hp
             cases hp)
        | (rw [List.mem_singleton] at he
           rename_i hcond
           refine ⟨he, ?_, ?_⟩
           · exact List.length_eq_zero.mp (by simpa using hcond.1)
           · exact List.length_pos.mp hcond.2)
    · rw [he] at hp
      cases hp

theorem playlist_changed_idle_frame_witness :
    mpv_property_changed_handler
        (fixed_engine true true true 0 (MpvNode.node_array two_item_playlist)
          MpvNode.none MpvNode.none) gmpv_player_init "playlist" Option.none =
      (gmpv_player_init, [Effect.parent_mpv_property_changed "playlist" Option.none]) :=
  (playlist_changed_idle_frame
    (fixed_engine true true true 0 (MpvNode.node_array two_item_playlist)
      MpvNode.none MpvNode.none) gmpv_player_init Option.none).1
    (by simp [gmpv_mpv_get_property_flag, fixed_engine])

/-! ## Track-list resync -/

theorem last_int64_append_singleton (key : String) (entries : mpv_node_list)
    (kv : String × MpvNode) :
    last_int64 key (entries ++ [kv]) =
      if kv.1 = key then kv.2.u_int64 else last_int64 key entries := by
  unfold last_int64
  by_cases h : kv.1 = key
  · simp [List.filter_append, h]
  · simp [List.filter_append, h]

theorem last_kind_append_singleton (entries : mpv_node_list) (kv : String × MpvNode) :
    last_kind (entries ++ [kv]) =
      if kv.1 = "type" then (recognised_type kv.2.u_string).getD (last_kind entries)
      else last_kind entries := by
  unfold last_kind
  by_cases h : kv.1 = "type"
  · cases hr : recognised_type kv.2.u_string with
    | none => simp [List.filterMap_append, h, hr]
    | some k => simp [List.filterMap_append, h, hr]
  · simp [List.filterMap_append, h]

theorem parse_track_entry_eq (node : mpv_node_list) :
    parse_track_entry node =
      { type := last_kind node, title := last_string "title" node,
        lang := last_string "lang" node, id := last_int64 "id" node } := by
  induction node using List.reverseRecOn with
  | nil => simp [parse_track_entry, gmpv_track_new, last_kind, last_string, last_int64]
  | append_singleton node kv ih =>
    unfold parse_track_entry at ih ⊢
    rw [List.foldl_append, ih]
    simp only [List.foldl_cons, List.foldl_nil]
    rw [last_string_append_singleton, last_string_append_singleton,
      last_int64_append_singleton, last_kind_append_singleton]
    by_cases h1 : kv.1 = "type"
    · simp only [h1, if_true]
      simp only [recognised_type]
      split_ifs <;> simp_all
    · by_cases h2 : kv.1 = "title"
      · simp [h2]
      · by_cases h3 : kv.1 = "lang"
        · simp [h3]
        · by_cases h4 : kv.1 = "id"
          · simp [h4]
          · simp [h1, h2, h3, h4]

theorem last_int64_of_field_is (entries : mpv_node_list) (key : String) (n : Int)
    (h : int64_field_is entries key n) : last_int64 key entries = n := by
  obtain ⟨hmem, hall⟩ := h
  have hne : entries.filter (fun kv => kv.1 = key) ≠ [] := by
    intro hnil
    rw [List.filter_eq_nil_iff] at hnil
    exact hnil _ hmem (by simp)
  obtain ⟨kv, hkv⟩ : ∃ kv, (entries.filter (fun kv => kv.1 = key)).getLast? = some kv := by
    cases hl : (entries.filter (fun kv => kv.1 = key)).getLast? with
    | none => exact absurd (List.getLast?_eq_none_iff.mp hl) hne
    | some kv => exact ⟨kv, rfl⟩
  have hin : kv ∈ entries.filter (fun kv => kv.1 = key) := List.mem_of_getLast?_eq_some hkv
  rw [List.mem_filter] at hin
  have hk : kv.1 = key := by simpa using hin.2
  have hv : kv.2 = MpvNode.int64 n := by
    apply hall
    rw [← hk]
    exact hin.1
  simp [last_int64, hkv, hv, MpvNode.u_int64]

theorem last_kind_of_field_is (entries : mpv_node_list) (type : Option String)
    (h : field_is entries "type" type) : last_kind entries = track_type_of type := by
  have hall : ∀ k ∈ entries.filterMap
      (fun kv => if kv.1 = "type" then recognised_type kv.2.u_string else Option.none),
      recognised_type type = some k := by
    intro k hk
    rw [List.mem_filterMap] at hk
    obtain ⟨kv, hkv, hr⟩ := hk
    by_cases ht : kv.1 = "type"
    · rw [if_pos ht] at hr
      cases type with
      | none => exact absurd ht (h kv hkv)
      | some s =>
        have hv : kv.2 = MpvNode.string s := by
          apply h.2
          rw [← ht]
          exact hkv
        rw [hv] at hr
        exact hr
    · rw [if_neg ht] at hr
      cases hr
  cases hl : (entries.filterMap
      (fun kv => if kv.1 = "type" then recognised_type kv.2.u_string else Option.none)).getLast? with
  | some k =>
    have hk := hall k (List.mem_of_getLast?_eq_some hl)
    simp [last_kind, hl, track_type_of, hk]
  | none =>
    have hnil := List.getLast?_eq_none_iff.mp hl
    cases hr : recognised_type type with
    | none => simp [last_kind, hl, track_type_of, hr]
    | some k =>
      cases type with
      | none => simp [recognised_type] at hr
      | some s =>
        have hmem : k ∈ entries.filterMap
            (fun kv => if kv.1 = "type" then recognised_type kv.2.u_string else Option.none) := by
          rw [List.mem_filterMap]
          exact ⟨("type", MpvNode.string s), h.1, by simpa [MpvNode.u_string] using hr⟩
        rw [hnil] at hmem
        exact absurd hmem (List.not_mem_nil k)

theorem update_track_list_array (mpv : Engine) (player : GmpvPlayer) (values : List MpvNode)
    (h : mpv.node "track-list" = MpvNode.node_array values) :
    update_track_list mpv player =
      { player with track_list := values.map (fun v => parse_track_entry v.u_list) } := by
  simp [update_track_list, h, MpvNode.format, MpvNode.u_array, foldl_track_add]

/-- C17: when the engine's `track-list` answer is an array of maps, the track cache after
`update_track_list` has one track per element, in order, and the track made from the
`i`-th map has the integer the map gives to `id` as its id, the strings it gives to
`title` and `lang` as title and language (`none` for an absent key), and the kind
Audio, Video or Subtitle when the map gives `type` the string `audio`, `video` or `sub`,
and Unknown for any other or absent `type`. -/
theorem update_track_list_resync (mpv : Engine) (player : GmpvPlayer) (values : List MpvNode)
    (h_array : mpv.node "track-list" = MpvNode.node_array values)
    (h_maps : ∀ v ∈ values, ∃ entries, v = MpvNode.node_map entries) :
    (update_track_list mpv player).track_list.length = values.length ∧
    ∀ i, i < values.length →
      ∃ entries track, values[i]? = some (MpvNode.node_map entries) ∧
        (update_track_list mpv player).track_list[i]? = some track ∧
        (∀ n, int64_field_is entries "id" n → track.id = n) ∧
        (∀ title, field_is entries "title" title → track.title = title) ∧
        (∀ lang, field_is entries "lang" lang → track.lang = lang) ∧
        (∀ type, field_is entries "type" type → track.type = track_type_of type) ∧
        track_type_of (some "audio") = TrackType.TRACK_TYPE_AUDIO ∧
        track_type_of (some "video") = TrackType.TRACK_TYPE_VIDEO ∧
        track_type_of (some "sub") = TrackType.TRACK_TYPE_SUBTITLE ∧
        (∀ type, type ≠ some "audio" → type ≠ some "video" → type ≠ some "sub" →
          track_type_of type = TrackType.TRACK_TYPE_UNKNOWN) := by
  rw [update_track_list_array mpv player values h_array]
  refine ⟨by simp, ?_⟩
  intro i hi
  obtain ⟨entries, he⟩ := h_maps values[i] (List.getElem_mem hi)
  refine ⟨entries, parse_track_entry entries, by simp [List.getElem?_eq_getElem hi, he],
    by simp [List.getElem?_eq_getElem hi, he, MpvNode.u_list], ?_, ?_, ?_, ?_, rfl, rfl, rfl, ?_⟩
  · intro n hn
    rw [parse_track_entry_eq]
    exact last_int64_of_field_is entries "id" n hn
  · intro title ht
    rw [parse_track_entry_eq]
    exact last_string_of_field_is entries "title" title ht
  · intro lang hl
    rw [parse_track_entry_eq]
    exact last_string_of_field_is entries "lang" lang hl
  · intro type ht
    rw [parse_track_entry_eq]
    exact last_kind_of_field_is entries type ht
  · intro type h1 h2 h3
    simp [track_type_of, recognised_type, h1, h2, h3]

theorem update_track_list_resync_witness :
    (update_track_list
        (fixed_engine true false true 0 MpvNode.none MpvNode.none
          (MpvNode.node_array two_tracks)) stale_player).track_list.length = 2 ∧
    (∃ track,
      (update_track_list
          (fixed_engine true false true 0 MpvNode.none MpvNode.none
            (MpvNode.node_array two_tracks)) stale_player).track_list[0]? = some track ∧
      track.id = 1 ∧ track.title = Option.none ∧ track.lang = some "en" ∧
      track.type = TrackType.TRACK_TYPE_AUDIO) ∧
    (∃ track,
      (update_track_list
          (fixed_engine true false true 0 MpvNode.none MpvNode.none
            (MpvNode.node_array two_tracks)) stale_player).track_list[1]? = some track ∧
      track.id = 7 ∧ track.title = Option.none ∧ track.lang = Option.none ∧
      track.type = TrackType.TRACK_TYPE_UNKNOWN) := by
  have h := update_track_list_resync
    (fixed_engine true false true 0 MpvNode.none MpvNode.none (MpvNode.node_array two_tracks))
    stale_player two_tracks
    (by simp [fixed_engine])
    (by intro v hv; simp [two_tracks] at hv; rcases hv with rfl | rfl <;> exact ⟨_, rfl⟩)
  refine ⟨h.1, ?_, ?_⟩
  · obtain ⟨entries, track, he, ht, hid, htitle, hlang, htype, _⟩ :=
      h.2 0 (by simp [two_tracks])
    simp [two_tracks] at he
    subst he
    exact ⟨track, ht, hid 1 (by simp [int64_field_is]),
      htitle Option.none (by simp [field_is]),
      hlang (some "en") (by simp [field_is]),
      htype (some "audio") (by simp [field_is])⟩
  · obtain ⟨entries, track, he, ht, hid, htitle, hlang, htype, _, _, _, hunknown⟩ :=
      h.2 1 (by simp [two_tracks])
    simp [two_tracks] at he
    subst he
    refine ⟨track, ht, hid 7 (by simp [int64_field_is]),
      htitle Option.none (by simp [field_is]),
      hlang Option.none (by simp [field_is]), ?_⟩
    rw [htype (some "attachment") (by simp [field_is])]
    exact hunknown (some "attachment") (by simp) (by simp) (by simp)

/-! ## Writing the temporary input configuration file -/

theorem flush_ok (room : Nat) (s : OutStream) (h : (flush room s).2 = true) :
    (flush room s).1 = { file := s.file ++ s.buffer, buffer := [] } := by
  unfold flush sys_write at h ⊢
  simp only [List.length_take, decide_eq_true_eq] at h
  have hle : s.buffer.length ≤ room - s.file.length := by omega
  have htake : List.take (room - s.file.length) s.buffer = s.buffer :=
    List.take_of_length_le hle
  simp only [htake, List.drop_length]

theorem flush_room (room : Nat) (s : OutStream)
    (h : s.file.length + s.buffer.length ≤ room) : (flush room s).2 = true := by
  unfold flush sys_write
  simp only [List.length_take, decide_eq_true_eq]
  omega

theorem short_count (size nmemb k : Nat) (hs : size ≠ 0) (hn : nmemb ≠ 0) (hk : 0 < k) :
    (size * nmemb - k) / size ≠ nmemb := by
  have hpos : 0 < size := Nat.pos_of_ne_zero hs
  have hmul : 0 < size * nmemb := Nat.mul_pos hpos (Nat.pos_of_ne_zero hn)
  have hlt : (size * nmemb - k) / size < nmemb := by
    rw [Nat.div_lt_iff_lt_mul hpos, Nat.mul_comm nmemb size]
    omega
  omega

theorem fwrite_spec (room bufsiz : Nat) (s : OutStream) (data : List Nat) (size nmemb : Nat)
    (hs : size ≠ 0) (hn : nmemb ≠ 0) (hlen : data.length = size * nmemb) :
    ((fwrite room bufsiz s data size nmemb).2 = nmemb →
      (fwrite room bufsiz s data size nmemb).1.bytes = s.bytes ++ data) ∧
    (s.bytes.length + data.length ≤ room →
      (fwrite room bufsiz s data size nmemb).2 = nmemb) := by
  have hcond : ¬ (size = 0 ∨ nmemb = 0) := by
    rintro (h | h)
    · exact hs h
    · exact hn h
  unfold fwrite
  simp only [if_neg hcond]
  generalize hcount : min (bufsiz - s.buffer.length) data.length = count
  have hsplit : data.take count ++ data.drop count = data := List.take_append_drop count data
  have hcle : count ≤ data.length := by omega
  have hrest : (data.drop count).length = data.length - count := List.length_drop count data
  have htk : (data.take count).length = count := by
    rw [List.length_take]
    omega
  by_cases hnil : data.drop count = []
  · simp only [hnil, if_true]
    constructor
    · intro _
      rw [hnil, List.append_nil] at hsplit
      simp only [OutStream.bytes, hsplit, List.append_assoc]
    · intro _
      trivial
  · simp only [hnil, if_false]
    have hpos : 0 < (data.drop count).length := List.length_pos.mpr hnil
    by_cases hfl : (flush room ⟨s.file, s.buffer ++ data.take count⟩).2 = false
    · simp only [hfl, if_true]
      constructor
      · intro h
        rw [hlen] at h
        exact absurd h (short_count size nmemb _ hs hn hpos)
      · intro hroom
        have hok := flush_room room ⟨s.file, s.buffer ++ data.take count⟩
          (by
            simp only [OutStream.bytes, List.length_append] at hroom ⊢
            omega)
        rw [hok] at hfl
        cases hfl
    · have hfl2 : (flush room ⟨s.file, s.buffer ++ data.take count⟩).2 = true := by
        simpa using hfl
      have hfile := flush_ok room _ hfl2
      simp only [hfl2, Bool.true_eq_false, if_false, hfile]
      generalize hdw : (data.drop count).length -
        (if 128 ≤ bufsiz then (data.drop count).length % bufsiz else 0) = do_write
      have hdle : do_write ≤ (data.drop count).length := by omega
      by_cases hshort : (sys_write room (s.file ++ (s.buffer ++ data.take count))
          ((data.drop count).take do_write)).2 < do_write
      · simp only [hshort, if_true]
        constructor
        · intro h
          rw [hlen] at h
          refine absurd h (short_count size nmemb _ hs hn ?_)
          omega
        · intro hroom
          exfalso
          unfold sys_write at hshort
          simp only [List.length_take, List.length_append, OutStream.bytes] at hshort hroom
          omega
      · simp only [hshort, if_false]
        refine ⟨fun _ => ?_, fun _ => trivial⟩
        unfold sys_write at hshort ⊢
        simp only [List.length_take, List.length_append, not_lt] at hshort
        have htake : List.take (room - (s.file ++ (s.buffer ++ data.take count)).length)
            ((data.drop count).take do_write) = (data.drop count).take do_write := by
          apply List.take_of_length_le
          simp only [List.length_take, List.length_append]
          omega
        simp only [OutStream.bytes, htake, List.append_assoc, List.take_append_drop, hsplit]

theorem fwrite_nothing (room bufsiz : Nat) (s : OutStream) (data : List Nat) (size nmemb : Nat)
    (h : size = 0 ∨ nmemb = 0) : fwrite room bufsiz s data size nmemb = (s, 0) := by
  unfold fwrite
  rw [if_pos h]

theorem fputc_spec (room bufsiz : Nat) (s : OutStream) (c : Nat) :
    ((fputc room bufsiz s c).2 = (c : Int) →
      (fputc room bufsiz s c).1.bytes = s.bytes ++ [c]) ∧
    (s.bytes.length + 1 ≤ room → (fputc room bufsiz s c).2 = (c : Int)) := by
  unfold fputc
  by_cases hfit : s.buffer.length < bufsiz
  · simp only [hfit, if_true]
    exact ⟨fun _ => by simp [OutStream.bytes], fun _ => trivial⟩
  · simp only [hfit, if_false]
    by_cases hfl : (flush room s).2 = false
    · simp only [hfl, if_true]
      constructor
      · intro h
        exfalso
        omega
      · intro hroom
        have hok := flush_room room s (by
          simp only [OutStream.bytes, List.length_append] at hroom
          omega)
        rw [hok] at hfl
        cases hfl
    · have hfl2 : (flush room s).2 = true := by simpa using hfl
      have hfile := flush_ok room s hfl2
      simp only [hfl2, Bool.true_eq_false, if_false, hfile]
      exact ⟨fun _ => by simp [OutStream.bytes], fun _ => trivial⟩

theorem default_lines_cons (keybind : List Nat) (rest : List (List Nat)) :
    default_lines (keybind :: rest) = keybind ++ [10] ++ default_lines rest := by
  simp [default_lines, List.flatMap_cons]

theorem write_default_keybinds_spec (room bufsiz : Nat) (default_keybinds : List (List Nat))
    (s : OutStream) :
    (∀ s1, write_default_keybinds room bufsiz default_keybinds s = some s1 →
      s1.bytes = s.bytes ++ default_lines default_keybinds) ∧
    ((∀ keybind ∈ default_keybinds, keybind ≠ []) →
      s.bytes.length + (default_lines default_keybinds).length ≤ room →
      ∃ s1, write_default_keybinds room bufsiz default_keybinds s = some s1) := by
  induction default_keybinds generalizing s with
  | nil =>
    constructor
    · intro s1 h
      simp only [write_default_keybinds, Option.some.injEq] at h
      rw [← h]
      simp [default_lines]
    · intro _ _
      exact ⟨s, rfl⟩
  | cons keybind rest ih =>
    rw [default_lines_cons]
    by_cases hk : keybind = []
    · constructor
      · intro s1 h
        exfalso
        unfold write_default_keybinds at h
        simp only [fwrite_nothing room bufsiz s keybind keybind.length 1
          (Or.inl (by rw [hk]; rfl))] at h
        simp at h
      · intro hall _
        exact absurd hk (hall keybind (List.mem_cons_self _ _))
    · have hlen0 : keybind.length ≠ 0 := fun h => hk (List.length_eq_zero.mp h)
      obtain ⟨hw1, hw2⟩ := fwrite_spec room bufsiz s keybind keybind.length 1 hlen0
        (by decide) (Nat.mul_one _).symm
      obtain ⟨hc1, hc2⟩ := fputc_spec room bufsiz
        (fwrite room bufsiz s keybind keybind.length 1).1 10
      constructor
      · intro s1 h
        unfold write_default_keybinds at h
        simp only at h
        split_ifs at h with hbad
        have hgood : (fwrite room bufsiz s keybind keybind.length 1).2 = 1 ∧
            (fputc room bufsiz (fwrite room bufsiz s keybind keybind.length 1).1 10).2 = 10 := by
          constructor
          · by_contra hne
            exact hbad (Or.inl hne)
          · by_contra hne
            exact hbad (Or.inr hne)
        rw [(ih _).1 s1 h, hc1 hgood.2, hw1 hgood.1]
        simp only [List.append_assoc]
      · intro hall hroom
        simp only [List.length_append, List.length_singleton] at hroom
        have h1 : (fwrite room bufsiz s keybind keybind.length 1).2 = 1 := hw2 (by omega)
        have hb1 := hw1 h1
        have h2 : (fputc room bufsiz (fwrite room bufsiz s keybind keybind.length 1).1 10).2
            = 10 := hc2 (by
          rw [hb1, List.length_append]
          omega)
        have hb2 := hc1 h2
        unfold write_default_keybinds
        have hnot : ¬ ((fwrite room bufsiz s keybind keybind.length 1).2 ≠ 1 ∨
            (fputc room bufsiz (fwrite room bufsiz s keybind keybind.length 1).1 10).2 ≠ 10) := by
          rintro (h | h)
          · exact h h1
          · exact h h2
        simp only [if_neg hnot]
        apply (ih _).2 (fun k hkm => hall k (List.mem_cons_of_mem _ hkm))
        rw [hb2, hb1]
        simp only [List.length_append, List.length_singleton]
        omega

theorem copy_input_conf_step (room bufsiz n : Nat)
    (ih : ∀ m, m < n → ∀ (src : List Nat) (s : OutStream), src.length = m →
      (∀ s1, copy_input_conf room bufsiz src s = some s1 → s1.bytes = s.bytes ++ src) ∧
      (s.bytes.length + src.length ≤ room →
        ∃ s1, copy_input_conf room bufsiz src s = some s1))
    (src : List Nat) (s : OutStream) (hn : src.length = n) :
    (∀ s1, copy_input_conf room bufsiz src s = some s1 → s1.bytes = s.bytes ++ src) ∧
    (s.bytes.length + src.length ≤ room →
      ∃ s1, copy_input_conf room bufsiz src s = some s1) := by
  have hpos : 0 < buf_size := by decide
  have hsplit : src.take buf_size ++ src.drop buf_size = src := List.take_append_drop _ _
  have hchunk : (src.take buf_size).length = min buf_size src.length := List.length_take _ _
  by_cases hzero : (src.take buf_size).length = 0
  · have hsrc : src = [] := by
      have : src.length = 0 := by omega
      exact List.length_eq_zero.mp this
    subst hsrc
    have hw := fwrite_nothing room bufsiz s [] 1 0 (Or.inr rfl)
    have hne : ¬ (0 = buf_size) := by omega
    rw [copy_input_conf]
    simp only [List.take_nil, List.length_nil, hw, ne_eq, not_true_eq_false, if_false,
      dif_neg hne, Option.some.injEq, List.append_nil]
    exact ⟨fun s1 h => by rw [← h], fun _ => ⟨s, rfl⟩⟩
  · rw [copy_input_conf]
    obtain ⟨hw1, hw2⟩ := fwrite_spec room bufsiz s (src.take buf_size) 1
      (src.take buf_size).length (by decide) hzero (Nat.one_mul _).symm
    by_cases hshort : (src.take buf_size).length =
        (fwrite room bufsiz s (src.take buf_size) 1 (src.take buf_size).length).2
    · have hb := hw1 hshort.symm
      have hnn : ¬ ((src.take buf_size).length ≠
          (fwrite room bufsiz s (src.take buf_size) 1 (src.take buf_size).length).2) :=
        fun h => h hshort
      simp only [if_neg hnn]
      by_cases hfull : (src.take buf_size).length = buf_size
      · simp only [dif_pos hfull]
        have hlt : (src.drop buf_size).length < n := by
          rw [List.length_drop]
          omega
        obtain ⟨ih1, ih2⟩ := ih _ hlt (src.drop buf_size)
          (fwrite room bufsiz s (src.take buf_size) 1 (src.take buf_size).length).1 rfl
        constructor
        · intro s1 h
          rw [ih1 s1 h, hb, List.append_assoc, hsplit]
        · intro hroom
          apply ih2
          rw [hb, List.length_append, List.length_drop, hchunk]
          omega
      · simp only [dif_neg hfull, Option.some.injEq]
        have hall : src.take buf_size = src := by
          apply List.take_of_length_le
          omega
        constructor
        · intro s1 h
          rw [← h, hb, hall]
        · intro _
          exact ⟨_, rfl⟩
    · have hnn : (src.take buf_size).length ≠
          (fwrite room bufsiz s (src.take buf_size) 1 (src.take buf_size).length).2 := hshort
      simp only [if_pos hnn]
      constructor
      · intro s1 h
        cases h
      · intro hroom
        exfalso
        apply hshort
        apply (hw2 _).symm
        rw [hchunk]
        omega

theorem copy_input_conf_spec (room bufsiz : Nat) (src : List Nat) (s : OutStream) :
    (∀ s1, copy_input_conf room bufsiz src s = some s1 → s1.bytes = s.bytes ++ src) ∧
    (s.bytes.length + src.length ≤ room →
      ∃ s1, copy_input_conf room bufsiz src s = some s1) := by
  have main : ∀ (n : Nat) (src : List Nat) (s : OutStream), src.length = n →
      (∀ s1, copy_input_conf room bufsiz src s = some s1 → s1.bytes = s.bytes ++ src) ∧
      (s.bytes.length + src.length ≤ room →
        ∃ s1, copy_input_conf room bufsiz src s = some s1) := by
    intro n
    induction n using Nat.strong_induction_on with
    | _ n ih =>
      intro src s hn
      exact copy_input_conf_step room bufsiz n ih src s hn
  exact main src.length src s rfl

theorem string_length_pos_iff (path : String) : path.length > 0 ↔ path ≠ "" := by
  constructor
  · intro h he
    rw [he] at h
    exact absurd h (by decide)
  · intro h
    by_contra h0
    apply h
    have hlen : path.data.length = 0 := by
      have : path.length = 0 := by omega
      exact this
    exact String.ext (List.length_eq_zero.mp hlen)

theorem copied_spec (env : InputConfEnv) (input_conf : Option String) (s : OutStream)
    (copied : Option OutStream)
    (hdef : copied =
      match input_conf with
      | some path =>
        if path.length > 0 then
          match env.src_file with
          | some src => copy_input_conf env.room env.bufsiz src s
          | Option.none => some s
        else some s
      | Option.none => some s) :
    (∀ s1, copied = some s1 → s1.bytes = s.bytes ++ override_bytes env input_conf) ∧
    (s.bytes.length + (override_bytes env input_conf).length ≤ env.room →
      ∃ s1, copied = some s1) := by
  subst hdef
  cases input_conf with
  | none =>
    simp only [override_bytes, List.append_nil, Option.some.injEq]
    exact ⟨fun s1 h => by rw [← h], fun _ => ⟨s, rfl⟩⟩
  | some path =>
    by_cases hp : path = ""
    · subst hp
      have hlen : ¬ ("".length > 0) := by decide
      simp only [override_bytes, hlen, if_true, if_false, List.append_nil, Option.some.injEq]
      exact ⟨fun s1 h => by rw [← h], fun _ => ⟨s, rfl⟩⟩
    · have hlen : path.length > 0 := (string_length_pos_iff path).mpr hp
      cases hs : env.src_file with
      | none =>
        simp only [override_bytes, hs, hp, hlen, if_true, if_false, Option.getD_none,
          List.append_nil, Option.some.injEq]
        exact ⟨fun s1 h => by rw [← h], fun _ => ⟨s, rfl⟩⟩
      | some src =>
        simp only [override_bytes, hs, hp, hlen, if_true, if_false, Option.getD_some]
        exact copy_input_conf_spec env.room env.bufsiz src s

theorem g_file_open_tmp_some (disk : Disk) (tmp_name : Option String) (tmp_path : String)
    (h : g_file_open_tmp disk tmp_name = some tmp_path) :
    tmp_name = some tmp_path ∧ disk tmp_path = Option.none := by
  unfold g_file_open_tmp at h
  cases tmp_name with
  | none => cases h
  | some name =>
    simp only at h
    split_ifs at h with hex
    cases h
    refine ⟨rfl, ?_⟩
    cases hd : disk tmp_path with
    | none => rfl
    | some bytes => simp [hd] at hex

theorem load_input_conf_shape (env : InputConfEnv) (default_keybinds : List (List Nat))
    (player player1 : GmpvPlayer) (disk disk1 : Disk) (input_conf : Option String)
    (effects : List Effect)
    (h : load_input_conf env default_keybinds player disk input_conf =
      some (player1, disk1, effects)) :
    ∃ tmp_path tmp_file,
      g_file_open_tmp (finalize player disk) env.tmp_name = some tmp_path ∧
      player1 = { player with tmp_input_config := some tmp_path } ∧
      OutStream.bytes tmp_file =
        default_lines default_keybinds ++ override_bytes env input_conf ∧
      disk1 = (fun q => if q = tmp_path then some (flush env.room tmp_file).1.file
        else finalize player disk q) ∧
      effects = [Effect.set_option_string "input-conf" tmp_path,
        Effect.fclose (flush env.room tmp_file).2] := by
  have hfin : (match player.tmp_input_config with
      | some old => g_unlink disk old
      | Option.none => disk) = finalize player disk := rfl
  unfold load_input_conf at h
  simp only [hfin] at h
  cases hopen : g_file_open_tmp (finalize player disk) env.tmp_name with
  | none => simp [hopen] at h
  | some tmp_path =>
    simp only [hopen] at h
    cases hw : write_default_keybinds env.room env.bufsiz default_keybinds
        { file := [], buffer := [] } with
    | none => simp [hw] at h
    | some written =>
      simp only [hw] at h
      have hwb := (write_default_keybinds_spec env.room env.bufsiz default_keybinds
        { file := [], buffer := [] }).1 written hw
      obtain ⟨hc1, _⟩ := copied_spec env input_conf written _ rfl
      cases hcopy : (match input_conf with
          | some path =>
            if path.length > 0 then
              match env.src_file with
              | some src => copy_input_conf env.room env.bufsiz src written
              | Option.none => some written
            else some written
          | Option.none => some written) with
      | none => simp [hcopy] at h
      | some tmp_file =>
        have hcb := hc1 tmp_file hcopy
        simp only [hcopy, Option.some.injEq, Prod.mk.injEq] at h
        obtain ⟨hp, hd, he⟩ := h
        refine ⟨tmp_path, tmp_file, rfl, hp.symm, ?_, hd.symm, he.symm⟩
        rw [hcb, hwb]
        simp [OutStream.bytes]

theorem load_input_conf_succeeds (env : InputConfEnv) (default_keybinds : List (List Nat))
    (player : GmpvPlayer) (disk : Disk) (input_conf : Option String) (tmp_path : String)
    (hk : ∀ keybind ∈ default_keybinds, keybind ≠ [])
    (hname : env.tmp_name = some tmp_path)
    (hfree : disk tmp_path = Option.none ∨ player.tmp_input_config = some tmp_path)
    (hroom : (default_lines default_keybinds).length +
      (override_bytes env input_conf).length ≤ env.room) :
    ∃ disk1,
      load_input_conf env default_keybinds player disk input_conf =
        some ({ player with tmp_input_config := some tmp_path }, disk1,
          [Effect.set_option_string "input-conf" tmp_path, Effect.fclose true]) ∧
      disk1 tmp_path =
        some (default_lines default_keybinds ++ override_bytes env input_conf) ∧
      ∀ q, q ≠ tmp_path → disk1 q = finalize player disk q := by
  have hfin : finalize player disk tmp_path = Option.none := by
    unfold finalize
    rcases hfree with hf | hf
    · cases player.tmp_input_config with
      | none => exact hf
      | some old =>
        simp only [g_unlink]
        split_ifs
        · rfl
        · exact hf
    · simp [hf, g_unlink]
  have hopen : g_file_open_tmp (finalize player disk) env.tmp_name = some tmp_path := by
    simp [g_file_open_tmp, hname, hfin]
  have hfin2 : (match player.tmp_input_config with
      | some old => g_unlink disk old
      | Option.none => disk) = finalize player disk := rfl
  obtain ⟨hw1, hw2⟩ := write_default_keybinds_spec env.room env.bufsiz default_keybinds
    { file := [], buffer := [] }
  obtain ⟨written, hw⟩ := hw2 hk (by
    simp only [OutStream.bytes, List.append_nil, List.length_nil, Nat.zero_add]
    omega)
  have hwb : written.bytes = default_lines default_keybinds := by
    rw [hw1 written hw]
    simp [OutStream.bytes]
  obtain ⟨hc1, hc2⟩ := copied_spec env input_conf written _ rfl
  obtain ⟨tmp_file, hcopy⟩ := hc2 (by rw [hwb]; exact hroom)
  have hcb : tmp_file.bytes =
      default_lines default_keybinds ++ override_bytes env input_conf := by
    rw [hc1 tmp_file hcopy, hwb]
  have hok : (flush env.room tmp_file).2 = true := by
    apply flush_room
    have hl : tmp_file.bytes.length = (default_lines default_keybinds).length +
        (override_bytes env input_conf).length := by
      rw [hcb, List.length_append]
    simp only [OutStream.bytes, List.length_append] at hl
    omega
  have hfile : (flush env.room tmp_file).1.file =
      default_lines default_keybinds ++ override_bytes env input_conf := by
    rw [flush_ok env.room tmp_file hok, ← hcb]
    rfl
  unfold load_input_conf
  simp only [hfin2, hopen, hw, hcopy, hok, hfile]
  refine ⟨_, rfl, by simp, ?_⟩
  intro q hq
  simp [hq]

/-- C18: when every write of `load_input_conf` succeeds, that is when no `fwrite` or
`fputc` comes up short (so no `g_error` is taken and the function runs to its end) and
`fclose` writes the whole buffer out, the temporary file holds exactly every default
binding followed by a newline, in order, followed by the bytes of the override file:
all of them, whatever their number, when `input_conf` is given, is not the empty string
and can be opened, and none when `input_conf` is `NULL`, is the empty string or cannot
be opened.  All the writes do succeed when no default binding is empty, the file can
be created, and the file has room for these bytes. -/
theorem load_input_conf_content (env : InputConfEnv) (default_keybinds : List (List Nat))
    (player : GmpvPlayer) (disk : Disk) (input_conf : Option String) :
    (∀ player1 disk1 effects,
      load_input_conf env default_keybinds player disk input_conf =
        some (player1, disk1, effects) →
      Effect.fclose true ∈ effects →
      ∃ tmp_path, env.tmp_name = some tmp_path ∧
        player1.tmp_input_config = some tmp_path ∧
        disk1 tmp_path =
          some (default_lines default_keybinds ++ override_bytes env input_conf)) ∧
    (override_bytes env Option.none = [] ∧ override_bytes env (some "") = [] ∧
      (env.src_file = Option.none → override_bytes env input_conf = []) ∧
      (∀ path src, path ≠ "" → env.src_file = some src →
        override_bytes env (some path) = src)) ∧
    ((∀ keybind ∈ default_keybinds, keybind ≠ []) →
      (∃ tmp_path, env.tmp_name = some tmp_path ∧
        (disk tmp_path = Option.none ∨ player.tmp_input_config = some tmp_path)) →
      (default_lines default_keybinds).length + (override_bytes env input_conf).length
        ≤ env.room →
      ∃ player1 disk1 effects,
        load_input_conf env default_keybinds player disk input_conf =
          some (player1, disk1, effects) ∧
        Effect.fclose true ∈ effects) := by
  refine ⟨?_, ⟨rfl, rfl, ?_, ?_⟩, ?_⟩
  · intro player1 disk1 effects h hclose
    obtain ⟨tmp_path, tmp_file, hopen, hp, hbytes, hd, he⟩ :=
      load_input_conf_shape env default_keybinds player player1 disk disk1 input_conf
        effects h
    have hok : (flush env.room tmp_file).2 = true := by
      rw [he] at hclose
      simp only [List.mem_cons, reduceCtorEq, Effect.fclose.injEq, List.mem_singleton,
        List.not_mem_nil, or_false, false_or] at hclose
      exact hclose.symm
    refine ⟨tmp_path, (g_file_open_tmp_some _ _ _ hopen).1, by rw [hp], ?_⟩
    rw [hd, flush_ok env.room tmp_file hok, ← hbytes]
    simp [OutStream.bytes]
  · intro hs
    cases input_conf with
    | none => rfl
    | some path => simp [override_bytes, hs]
  · intro path src hp hs
    simp [override_bytes, hp, hs]
  · intro hk hopen hroom
    obtain ⟨tmp_path, hname, hfree⟩ := hopen
    obtain ⟨disk1, hrun, _, _⟩ := load_input_conf_succeeds env default_keybinds player disk
      input_conf tmp_path hk hname hfree hroom
    exact ⟨_, disk1, _, hrun, by simp⟩

/-- A short file without `g_error`: when the new file can take three bytes only, the
five bytes of the two sample bindings all go into the buffer of the stream, so no
`fwrite` or `fputc` comes up short and `load_input_conf` runs to its end; `fclose`
then fails to write the buffer out, the code does not look at its result, and the file
is left with three bytes. -/
theorem load_input_conf_short_file :
    (load_input_conf tight_conf_env sample_keybinds gmpv_player_init empty_disk
        Option.none).map
      (fun result => (result.1.tmp_input_config, result.2.1 "/tmp/a", result.2.2)) =
      some (some "/tmp/a", some [65, 66, 10],
        [Effect.set_option_string "input-conf" "/tmp/a", Effect.fclose false]) := by
  simp [load_input_conf, tight_conf_env, sample_keybinds, gmpv_player_init, empty_disk,
    g_file_open_tmp, write_default_keybinds, fwrite, fputc, flush, sys_write]

theorem big_override_length : big_override.length = 131072 := by
  unfold big_override
  rw [List.length_replicate]
  rfl

theorem load_input_conf_content_witness :
    ∃ player1 disk1 effects,
      load_input_conf sample_conf_env sample_keybinds gmpv_player_init empty_disk
          (some "input.conf") = some (player1, disk1, effects) ∧
      Effect.fclose true ∈ effects ∧
      player1.tmp_input_config = some "/tmp/a" ∧
      disk1 "/tmp/a" = some ([65, 66, 10, 67, 10] ++ big_override) := by
  have hover : override_bytes sample_conf_env (some "input.conf") = big_override := by
    simp [override_bytes, sample_conf_env]
  have hlines : default_lines sample_keybinds = [65, 66, 10, 67, 10] := by
    simp [default_lines, sample_keybinds]
  obtain ⟨player1, disk1, effects, hr, hclose⟩ :=
    (load_input_conf_content sample_conf_env sample_keybinds gmpv_player_init empty_disk
      (some "input.conf")).2.2
      (by simp [sample_keybinds])
      ⟨"/tmp/a", rfl, Or.inl rfl⟩
      (by rw [hover, hlines, big_override_length]; simp [sample_conf_env])
  obtain ⟨tmp_path, hn, hp, hd⟩ :=
    (load_input_conf_content sample_conf_env sample_keybinds gmpv_player_init empty_disk
      (some "input.conf")).1 player1 disk1 effects hr hclose
  have ht : tmp_path = "/tmp/a" := by
    have h2 : some "/tmp/a" = some tmp_path := hn
    exact (Option.some.inj h2).symm
  subst ht
  exact ⟨player1, disk1, effects, hr, hclose, hp, by rw [hd, hover, hlines]⟩

/-! ## At most one temporary file -/

theorem load_input_conf_owned (env : InputConfEnv) (default_keybinds : List (List Nat))
    (player player1 : GmpvPlayer) (disk disk1 : Disk) (input_conf : Option String)
    (effects : List Effect) (created : List String)
    (hinv : ∀ path, (path ∈ created ∧ (disk path).isSome = true) ↔
      player.tmp_input_config = some path)
    (h : load_input_conf env default_keybinds player disk input_conf =
      some (player1, disk1, effects)) :
    (∃ tmp_path, player1.tmp_input_config = some tmp_path) ∧
    ∀ path, (path ∈ created ++ env.tmp_name.toList ∧ (disk1 path).isSome = true) ↔
      player1.tmp_input_config = some path := by
  obtain ⟨tmp_path, tmp_file, hopen, hp, _, hd, _⟩ :=
    load_input_conf_shape env default_keybinds player player1 disk disk1 input_conf effects h
  obtain ⟨hname, hfree⟩ := g_file_open_tmp_some _ _ _ hopen
  subst hp
  subst hd
  refine ⟨⟨tmp_path, rfl⟩, ?_⟩
  intro path
  simp only [hname, Option.toList_some, List.mem_append, List.mem_singleton,
    Option.some.injEq]
  constructor
  · rintro ⟨hmem, hex⟩
    by_contra hne
    have hne2 : ¬ path = tmp_path := fun hq => hne hq.symm
    rw [if_neg hne2] at hex
    have hc : path ∈ created := by
      rcases hmem with hc | hc
      · exact hc
      · exact absurd hc hne2
    unfold finalize at hex
    cases hold : player.tmp_input_config with
    | none =>
      rw [hold] at hex
      have := (hinv path).mp ⟨hc, hex⟩
      rw [hold] at this
      cases this
    | some old =>
      rw [hold] at hex
      simp only [g_unlink] at hex
      by_cases hpo : path = old
      · rw [if_pos hpo] at hex
        cases hex
      · rw [if_neg hpo] at hex
        have := (hinv path).mp ⟨hc, hex⟩
        rw [hold] at this
        exact hpo (Option.some.inj this).symm
  · intro hq
    subst hq
    exact ⟨Or.inr rfl, by simp⟩

theorem run_load_input_conf_owned (default_keybinds : List (List Nat))
    (calls : List (InputConfEnv × Option String))
    (player player1 : GmpvPlayer) (disk disk1 : Disk) (created created1 : List String)
    (hinv : ∀ path, (path ∈ created ∧ (disk path).isSome = true) ↔
      player.tmp_input_config = some path)
    (h : run_load_input_conf default_keybinds (player, disk, created) calls =
      some (player1, disk1, created1)) :
    (calls ≠ [] → ∃ tmp_path, player1.tmp_input_config = some tmp_path) ∧
    ∀ path, (path ∈ created1 ∧ (disk1 path).isSome = true) ↔
      player1.tmp_input_config = some path := by
  induction calls generalizing player disk created with
  | nil =>
    simp only [run_load_input_conf, Option.some.injEq, Prod.mk.injEq] at h
    obtain ⟨hp, hd, hc⟩ := h
    subst hp
    subst hd
    subst hc
    exact ⟨fun hne => absurd rfl hne, hinv⟩
  | cons call rest ih =>
    simp only [run_load_input_conf] at h
    cases hcall : load_input_conf call.1 default_keybinds player disk call.2 with
    | none => simp [hcall] at h
    | some result =>
      obtain ⟨player2, disk2, effects⟩ := result
      simp only [hcall] at h
      obtain ⟨hsome, hinv2⟩ := load_input_conf_owned call.1 default_keybinds player player2
        disk disk2 call.2 effects created hinv hcall
      obtain ⟨hrest, hfinal⟩ := ih player2 disk2 (created ++ call.1.tmp_name.toList) hinv2 h
      refine ⟨fun _ => ?_, hfinal⟩
      cases rest with
      | nil =>
        simp only [run_load_input_conf, Option.some.injEq, Prod.mk.injEq] at h
        rw [← h.1]
        exact hsome
      | cons c cs => exact hrest (List.cons_ne_nil c cs)

theorem finalize_unlinks_owned (player : GmpvPlayer) (disk : Disk) (created : List String)
    (hinv : ∀ path, (path ∈ created ∧ (disk path).isSome = true) ↔
      player.tmp_input_config = some path)
    (path : String) (hmem : path ∈ created) : finalize player disk path = Option.none := by
  unfold finalize
  cases hold : player.tmp_input_config with
  | none =>
    simp only
    cases hd : disk path with
    | none => rfl
    | some bytes =>
      have := (hinv path).mp ⟨hmem, by simp [hd]⟩
      rw [hold] at this
      cases this
  | some old =>
    simp only [g_unlink]
    by_cases hpo : path = old
    · rw [if_pos hpo]
    · rw [if_neg hpo]
      cases hd : disk path with
      | none => rfl
      | some bytes =>
        have := (hinv path).mp ⟨hmem, by simp [hd]⟩
        rw [hold] at this
        exact absurd (Option.some.inj this).symm hpo

/-- C19: after any number `N >= 1` of `load_input_conf` calls on a fresh player, none
of them stopped by `g_error`, the player holds the path of a temporary file, and among
the temporary files these calls created the ones that still exist are exactly that one
file (every earlier one has been unlinked); after `finalize` none of them exists. -/
theorem single_temporary_file (default_keybinds : List (List Nat)) (disk : Disk)
    (calls : List (InputConfEnv × Option String))
    (player1 : GmpvPlayer) (disk1 : Disk) (created : List String)
    (h_calls : calls ≠ [])
    (h_run : run_load_input_conf default_keybinds (gmpv_player_init, disk, []) calls =
      some (player1, disk1, created)) :
    (∃ tmp_path, player1.tmp_input_config = some tmp_path ∧
      ∀ path, (path ∈ created ∧ (disk1 path).isSome = true) ↔ path = tmp_path) ∧
    (∀ path, path ∈ created → finalize player1 disk1 path = Option.none) := by
  have hinit : ∀ path, (path ∈ ([] : List String) ∧ (disk path).isSome = true) ↔
      gmpv_player_init.tmp_input_config = some path := by
    intro path
    simp [gmpv_player_init]
  obtain ⟨hsome, hinv⟩ := run_load_input_conf_owned default_keybinds calls gmpv_player_init
    player1 disk disk1 [] created hinit h_run
  obtain ⟨tmp_path, htmp⟩ := hsome h_calls
  refine ⟨⟨tmp_path, htmp, ?_⟩, finalize_unlinks_owned player1 disk1 created hinv⟩
  intro path
  rw [hinv path, htmp]
  constructor
  · intro h
    exact (Option.some.inj h).symm
  · intro h
    rw [h]

theorem run_load_input_conf_two (default_keybinds : List (List Nat))
    (player p1 p2 : GmpvPlayer) (disk d1 d2 : Disk) (e1 e2 : List Effect)
    (env1 env2 : InputConfEnv) (conf1 conf2 : Option String) (name1 name2 : String)
    (hn1 : env1.tmp_name = some name1) (hn2 : env2.tmp_name = some name2)
    (h1 : load_input_conf env1 default_keybinds player disk conf1 = some (p1, d1, e1))
    (h2 : load_input_conf env2 default_keybinds p1 d1 conf2 = some (p2, d2, e2)) :
    run_load_input_conf default_keybinds (player, disk, []) [(env1, conf1), (env2, conf2)] =
      some (p2, d2, [name1, name2]) := by
  simp only [run_load_input_conf, h1, h2, hn1, hn2]
  rfl

theorem two_conf_calls_run :
    ∃ player1 disk1,
      run_load_input_conf sample_keybinds (gmpv_player_init, empty_disk, []) two_conf_calls =
        some (player1, disk1, ["/tmp/a", "/tmp/b"]) := by
  have hk : ∀ keybind ∈ sample_keybinds, keybind ≠ [] := by simp [sample_keybinds]
  have hlines : default_lines sample_keybinds = [65, 66, 10, 67, 10] := by
    simp [default_lines, sample_keybinds]
  have hover : override_bytes sample_conf_env (some "input.conf") = big_override := by
    simp [override_bytes, sample_conf_env]
  obtain ⟨d1, h1, _, hd1⟩ := load_input_conf_succeeds sample_conf_env sample_keybinds
    gmpv_player_init empty_disk (some "input.conf") "/tmp/a" hk rfl (Or.inl rfl)
    (by rw [hover, hlines, big_override_length]; simp [sample_conf_env])
  obtain ⟨d2, h2, _, _⟩ := load_input_conf_succeeds
    { tmp_name := some "/tmp/b", room := 100, bufsiz := 4096, src_file := Option.none }
    sample_keybinds
    { gmpv_player_init with tmp_input_config := some "/tmp/a" } d1 Option.none "/tmp/b" hk rfl
    (Or.inl (by rw [hd1 "/tmp/b" (by decide)]; rfl))
    (by rw [hlines]; simp [override_bytes])
  exact ⟨_, d2, run_load_input_conf_two sample_keybinds gmpv_player_init _ _ empty_disk d1 d2
    _ _ sample_conf_env
    { tmp_name := some "/tmp/b", room := 100, bufsiz := 4096, src_file := Option.none }
    (some "input.conf") Option.none "/tmp/a" "/tmp/b" rfl rfl h1 h2⟩

theorem single_temporary_file_witness :
    ∃ player1 disk1,
      run_load_input_conf sample_keybinds (gmpv_player_init, empty_disk, []) two_conf_calls =
        some (player1, disk1, ["/tmp/a", "/tmp/b"]) ∧
      (∃ tmp_path, player1.tmp_input_config = some tmp_path ∧
        ∀ path, (path ∈ ["/tmp/a", "/tmp/b"] ∧ (disk1 path).isSome = true) ↔
          path = tmp_path) ∧
      (∀ path, path ∈ ["/tmp/a", "/tmp/b"] → finalize player1 disk1 path = Option.none) := by
  obtain ⟨player1, disk1, hrun⟩ := two_conf_calls_run
  exact ⟨player1, disk1, hrun,
    single_temporary_file sample_keybinds empty_disk two_conf_calls player1 disk1
      ["/tmp/a", "/tmp/b"] (by simp [two_conf_calls]) hrun⟩

end Gmpv
